import Mathlib

/-!
Verification of the x-server HTTP server core against its natural-language
specification.  The C sources are shallowly embedded: C strings become
`List Nat` (byte values, `0` denoting NUL), pure C functions become Lean
functions, and the global mutable tables (per-IP admission maps, the file
cache) become explicit state values threaded through step functions.
Signed-`char` comparisons in the C source (`c < 0x20` on a byte that may
exceed 0x7F) are reproduced explicitly.
-/

namespace XServer

/-- Bytes of a Lean string literal, for concrete test inputs. -/
def s2b (s : String) : List Nat := s.toList.map Char.toNat

/-- C-string view of a byte buffer: everything before the first NUL. -/
def truncAtNul (l : List Nat) : List Nat := l.takeWhile (fun c => c ≠ 0)

/-- `isspace` in the C locale (space, \t, \n, \v, \f, \r); false for all
other byte values, including bytes ≥ 0x80. -/
def isSpaceC (c : Nat) : Bool :=
  c = 32 || c = 9 || c = 10 || c = 11 || c = 12 || c = 13

/-- `isalpha` in the C locale. -/
def isAlphaC (c : Nat) : Bool :=
  (65 ≤ c && c ≤ 90) || (97 ≤ c && c ≤ 122)

/-- `isdigit`. -/
def isDigitC (c : Nat) : Bool := 48 ≤ c && c ≤ 57

/-- `tolower` in the C locale: only A-Z are mapped. -/
def toLowerC (c : Nat) : Nat := if 65 ≤ c && c ≤ 90 then c + 32 else c

/-- `strcasecmp(a,b) == 0`: equality up to ASCII case. -/
def strCaseEq (a b : List Nat) : Bool :=
  a.map toLowerC = b.map toLowerC

/-- Trim `isspace` bytes from both ends, as the header parser and the
oauth config loader do (`while (isspace(*p)) p++` plus the trailing loop). -/
def trimC (l : List Nat) : List Nat :=
  ((l.dropWhile (fun c => isSpaceC c)).reverse.dropWhile (fun c => isSpaceC c)).reverse

/-- Substring containment, the specification-side reading of C `strstr`:
`pat` occurs contiguously inside `l`. -/
def ContainsSub (l pat : List Nat) : Prop :=
  ∃ pre post, l = pre ++ pat ++ post

/-- Executable `strstr(l, pat) != NULL`. -/
def strstrB (l pat : List Nat) : Bool :=
  match l with
  | [] => decide (pat = [])
  | _ :: rest => pat.isPrefixOf l || strstrB rest pat

theorem strstrB_iff_containsSub (l pat : List Nat) :
    strstrB l pat = true ↔ ContainsSub l pat := by
  induction l with
  | nil =>
    simp only [strstrB, decide_eq_true_eq, ContainsSub]
    constructor
    · rintro rfl; exact ⟨[], [], rfl⟩
    · rintro ⟨pre, post, h⟩
      have hl := congrArg List.length h
      simp only [List.length_append, List.length_nil] at hl
      exact List.eq_nil_of_length_eq_zero (by omega)
  | cons c rest ih =>
    simp only [strstrB, Bool.or_eq_true, ih, ContainsSub]
    constructor
    · rintro (h | ⟨pre, post, rfl⟩)
      · rcases List.isPrefixOf_iff_prefix.mp h with ⟨t, ht⟩
        exact ⟨[], t, by simp [ht]⟩
      · exact ⟨c :: pre, post, by simp⟩
    · rintro ⟨pre, post, h⟩
      cases pre with
      | nil =>
        left
        exact List.isPrefixOf_iff_prefix.mpr ⟨post, by simpa using h.symm⟩
      | cons p ps =>
        right
        refine ⟨ps, post, ?_⟩
        have h2 : c :: rest = p :: (ps ++ pat ++ post) := by simpa using h
        exact (List.cons.injEq .. ▸ h2).2

/-! ## Path normalization (src/http.c, normalize_path) -/

/-- Signed-`char` view of a byte, as x86 C code sees it in comparisons
such as `c < 0x20`. -/
def sByte (c : Nat) : Int := if 128 ≤ c then (c : Int) - 256 else (c : Int)

/-- The dangerous percent-encoded pairs checked by `normalize_path`:
`%2e`, `%2f`, `%5c` in either letter case. -/
def encodedDanger (c1 c2 : Nat) : Bool :=
  (c1 = 50 && (c2 = 101 || c2 = 69)) ||
  (c1 = 50 && (c2 = 102 || c2 = 70)) ||
  (c1 = 53 && (c2 = 99 || c2 = 67))

/-- Hex digit value, mirroring the nested conditionals in `normalize_path`. -/
def hexVal (c : Nat) : Option Nat :=
  if 48 ≤ c && c ≤ 57 then some (c - 48)
  else if 65 ≤ c && c ≤ 70 then some (c - 65 + 10)
  else if 97 ≤ c && c ≤ 102 then some (c - 97 + 10)
  else none

/-- The URL-decoding scan of `normalize_path`: rejects the dangerous
encoded sequences, decodes valid `%hh` pairs, copies a lone `%` through.
`none` models the `free + return NULL` rejection. -/
def decodeScan : List Nat → Option (List Nat)
  | [] => some []
  | c :: rest =>
    match rest with
    | c1 :: c2 :: rest2 =>
      if c = 37 && !(c1 = 0) && !(c2 = 0) then
        if encodedDanger c1 c2 then none
        else
          match hexVal c1, hexVal c2 with
          | some h1, some h2 => (decodeScan rest2).map (fun d => (h1 * 16 + h2) :: d)
          | _, _ => (decodeScan (c1 :: c2 :: rest2)).map (fun d => c :: d)
      else (decodeScan (c1 :: c2 :: rest2)).map (fun d => c :: d)
    | [] => some [c]
    | [c1] => (decodeScan [c1]).map (fun d => c :: d)

/-- Windows drive-prefix check in `normalize_path`: length ≥ 3,
second byte `:`, first byte alphabetic. -/
def driveCheck : List Nat → Bool
  | a :: b :: _ :: _ => b = 58 && isAlphaC a
  | _ => false

/-- The slash-collapsing / `./`-dropping loop of `normalize_path`.
`fuel` only bounds the recursion; every iteration consumes at least one
input byte, so `fuel = l.length` is always sufficient. -/
def collapseLoop (fuel : Nat) (l : List Nat) : List Nat :=
  match fuel, l with
  | 0, _ => []
  | _, [] => []
  | f + 1, 47 :: rest =>
      let rest2 := rest.dropWhile (fun c => c = 47)
      if rest2.isEmpty then [] else 47 :: collapseLoop f rest2
  | f + 1, 46 :: 47 :: rest => collapseLoop f rest
  | _, [46] => []
  | f + 1, c :: rest => c :: collapseLoop f rest

/-- `normalize_path` from src/http.c.  Input is the bytes of the C string
(no interior NUL); `none` models returning NULL.  All work past the decode
uses the decoded string's C-string view (`truncAtNul`), since `%00`
writes a NUL byte into the decoded buffer. -/
def normalize_path (p : List Nat) : Option (List Nat) :=
  if p.length = 0 then some [47]
  else if 2048 < p.length then none
  else
    match decodeScan p with
    | none => none
    | some decoded =>
      let d := truncAtNul decoded
      if strstrB d [46, 46, 47] || strstrB d [46, 46, 92] then none
      else if d.any (fun c => c = 10 || c = 13 || c = 0 || decide (sByte c < 32)) then none
      else if driveCheck d then none
      else
        let start := if d.head? = some 47 then ([] : List Nat) else [47]
        let core := start ++ collapseLoop d.length d
        some (if core.isEmpty then [47] else core)

/-- A raw path contains a `%2e`/`%2f`/`%5c` sequence (any case) with both
bytes present, i.e. the pattern `normalize_path`'s scan rejects. -/
def HasDangerTriple (p : List Nat) : Prop :=
  ∃ pre c1 c2 post, p = pre ++ [37, c1, c2] ++ post ∧ encodedDanger c1 c2 = true

theorem length_absurd_triple {l pre post : List Nat} {d1 d2 : Nat}
    (hp : l = pre ++ [37, d1, d2] ++ post) (hlen : l.length < 3) : False := by
  have := congrArg List.length hp
  simp only [List.length_append, List.length_cons, List.length_nil] at this
  omega

theorem decodeScan_rejects_danger (p : List Nat) (h : HasDangerTriple p) :
    decodeScan p = none := by
  induction p using decodeScan.induct with
  | case1 =>
    obtain ⟨pre, d1, d2, post, hp, -⟩ := h
    exact absurd hp (by simp)
  | case2 a b c d hcond hdang =>
    simp [decodeScan, hcond, hdang]
  | case3 a c1 c2 rest2 hcond hdang h1 h2 hx2 hx1 ih =>
    obtain ⟨pre, d1, d2, post, hp, hd⟩ := h
    match pre, hp with
    | [], hp =>
      simp only [List.nil_append, List.cons_append, List.cons.injEq] at hp
      obtain ⟨-, e1, e2, -⟩ := hp
      exact absurd (e1 ▸ e2 ▸ hd) hdang
    | [x], hp =>
      simp only [List.cons_append, List.nil_append, List.cons.injEq] at hp
      rw [hp.2.1] at hx1
      simp [hexVal] at hx1
    | [x, y], hp =>
      simp only [List.cons_append, List.nil_append, List.cons.injEq] at hp
      rw [hp.2.2.1] at hx2
      simp [hexVal] at hx2
    | x :: y :: z :: pre3, hp =>
      simp only [List.cons_append, List.cons.injEq] at hp
      have hres := ih ⟨pre3, d1, d2, post, hp.2.2.2, hd⟩
      simp [decodeScan, hcond, hdang, hx1, hx2, hres]
  | case4 a c1 c2 rest2 hcond hdang hnohex ih =>
    obtain ⟨pre, d1, d2, post, hp, hd⟩ := h
    cases pre with
    | nil =>
      simp only [List.nil_append, List.cons_append, List.cons.injEq] at hp
      obtain ⟨-, e1, e2, -⟩ := hp
      subst e1; subst e2
      simp only [encodedDanger, Bool.or_eq_true, Bool.and_eq_true,
        decide_eq_true_eq] at hd
      rcases hd with (⟨h1, h2 | h2⟩ | ⟨h1, h2 | h2⟩) | ⟨h1, h2 | h2⟩ <;>
        (subst h1; subst h2; exact (hnohex _ _ rfl rfl).elim)
    | cons x pre2 =>
      simp only [List.cons_append, List.cons.injEq] at hp
      have hres := ih ⟨pre2, d1, d2, post, hp.2, hd⟩
      rcases hx1 : hexVal c1 with _ | v1 <;> rcases hx2 : hexVal c2 with _ | v2
      · simp [decodeScan, hcond, hdang, hx1, hx2, hres]
      · simp [decodeScan, hcond, hdang, hx1, hx2, hres]
      · simp [decodeScan, hcond, hdang, hx1, hx2, hres]
      · exact (hnohex v1 v2 hx1 hx2).elim
  | case5 a c1 c2 rest2 hcond ih =>
    obtain ⟨pre, d1, d2, post, hp, hd⟩ := h
    cases pre with
    | nil =>
      simp only [List.nil_append, List.cons_append, List.cons.injEq] at hp
      obtain ⟨e0, e1, e2, -⟩ := hp
      subst e0; subst e1; subst e2
      simp only [encodedDanger, Bool.or_eq_true, Bool.and_eq_true,
        decide_eq_true_eq] at hd
      rcases hd with (⟨h1, h2 | h2⟩ | ⟨h1, h2 | h2⟩) | ⟨h1, h2 | h2⟩ <;>
        (subst h1; subst h2; exact (hcond rfl).elim)
    | cons x pre2 =>
      simp only [List.cons_append, List.cons.injEq] at hp
      have hres := ih ⟨pre2, d1, d2, post, hp.2, hd⟩
      simp [decodeScan, hcond, hres]
  | case6 a =>
    obtain ⟨pre, d1, d2, post, hp, -⟩ := h
    exact (length_absurd_triple hp (by simp)).elim
  | case7 a c1 ih =>
    obtain ⟨pre, d1, d2, post, hp, -⟩ := h
    exact (length_absurd_triple hp (by simp)).elim

/-- Spec-side reading of the byte test in `normalize_path`'s
control-character loop (`c == '\n' || c == '\r' || c == '\0' || c < 0x20`
on a signed char). -/
def BadPathByte (c : Nat) : Prop := c = 10 ∨ c = 13 ∨ c = 0 ∨ sByte c < 32

instance (c : Nat) : Decidable (BadPathByte c) := by
  unfold BadPathByte; infer_instance

/-- C3 (amended): `normalize_path` rejects every path whose raw bytes
contain a `%2e`/`%2f`/`%5c` sequence (any letter case), and any path it
accepts has a percent-decoded form whose C-string view contains no
`../` and no `..\` substring, no control byte (signed `< 0x20`, hence
also no byte ≥ 0x80) and no Windows drive prefix.  A trailing `..`
segment with no following separator, and a NUL produced by `%00`
(which merely truncates the decoded string), are NOT rejected, contrary
to the claim. -/
theorem normalize_path_rejections (p : List Nat) :
    (HasDangerTriple p → normalize_path p = none) ∧
    (∀ q, normalize_path p = some q →
      ∃ dec, decodeScan p = some dec ∧
        ¬ContainsSub (truncAtNul dec) [46, 46, 47] ∧
        ¬ContainsSub (truncAtNul dec) [46, 46, 92] ∧
        (∀ c ∈ truncAtNul dec, ¬BadPathByte c) ∧
        driveCheck (truncAtNul dec) = false) := by
  constructor
  · intro hdt
    have hne : ¬p.length = 0 := by
      intro h0
      obtain ⟨pre, d1, d2, post, hp, -⟩ := hdt
      rw [List.length_eq_zero] at h0
      exact absurd (h0 ▸ hp) (by simp)
    unfold normalize_path
    rw [if_neg hne]
    by_cases hlen : 2048 < p.length
    · rw [if_pos hlen]
    · rw [if_neg hlen, decodeScan_rejects_danger p hdt]
  · intro q hq
    unfold normalize_path at hq
    by_cases h0 : p.length = 0
    · rw [List.length_eq_zero.mp h0]
      refine ⟨[], rfl, ?_, ?_, ?_, ?_⟩ <;> simp [ContainsSub, truncAtNul, driveCheck]
    · rw [if_neg h0] at hq
      by_cases hlen : 2048 < p.length
      · rw [if_pos hlen] at hq; exact absurd hq (by simp)
      · rw [if_neg hlen] at hq
        rcases hdec : decodeScan p with _ | dec
        · rw [hdec] at hq; exact absurd hq (by simp)
        · rw [hdec] at hq
          dsimp only at hq
          refine ⟨dec, rfl, ?_⟩
          by_cases hss : (strstrB (truncAtNul dec) [46, 46, 47] ||
              strstrB (truncAtNul dec) [46, 46, 92]) = true
          · rw [if_pos hss] at hq; exact absurd hq (by simp)
          · rw [if_neg hss] at hq
            simp only [Bool.or_eq_true] at hss
            push_neg at hss
            by_cases hctl : ((truncAtNul dec).any
                (fun c => c = 10 || c = 13 || c = 0 || decide (sByte c < 32))) = true
            · rw [if_pos hctl] at hq; exact absurd hq (by simp)
            · rw [if_neg hctl] at hq
              by_cases hdrive : driveCheck (truncAtNul dec) = true
              · rw [if_pos hdrive] at hq; exact absurd hq (by simp)
              · refine ⟨?_, ?_, ?_, Bool.not_eq_true _ ▸ hdrive⟩
                · rw [← strstrB_iff_containsSub]
                  simp [hss.1]
                · rw [← strstrB_iff_containsSub]
                  simp [hss.2]
                · intro c hc
                  have := (List.any_eq_false ..).mp (Bool.not_eq_true _ ▸ hctl) c hc
                  simp only [Bool.or_eq_true, decide_eq_true_eq] at this
                  push_neg at this
                  unfold BadPathByte
                  push_neg
                  exact ⟨this.1.1.1, this.1.1.2, this.1.2, by omega⟩

/-- C3 counterexample: the path `/..` percent-decodes to itself and
contains a `..` segment, yet `normalize_path` does not reject it — it
returns `/.` (the trailing `.` of `..` is kept, the final `.` is eaten
by the `./`-skip rule).  The claim that a decoded `..` segment is always
rejected is therefore false. -/
theorem normalize_path_accepts_dotdot :
    normalize_path (s2b "/..") = some (s2b "/.") := by decide

/-- Witness for `normalize_path_rejections`: both hypotheses discharged
at concrete inputs (`%2e` has a danger triple; `/a` is accepted). -/
theorem normalize_path_rejections_witness :
    normalize_path (s2b "%2e") = none ∧
    (∃ dec, decodeScan (s2b "/a") = some dec ∧
      ¬ContainsSub (truncAtNul dec) [46, 46, 47] ∧
      ¬ContainsSub (truncAtNul dec) [46, 46, 92] ∧
      (∀ c ∈ truncAtNul dec, ¬BadPathByte c) ∧
      driveCheck (truncAtNul dec) = false) :=
  ⟨(normalize_path_rejections (s2b "%2e")).1 ⟨[], 50, 101, [], by decide, by decide⟩,
   (normalize_path_rejections (s2b "/a")).2 (s2b "/a") (by decide)⟩

/-! ## HTTP request parsing (src/http.c, parse_http_request_from_buffer) -/

inductive http_method_t
  | GET | POST | PUT | DELETE | HEAD | OPTIONS | UNKNOWN
deriving DecidableEq, Repr

/-- `parse_method` from src/http.c. -/
def parse_method (s : List Nat) : http_method_t :=
  if s = s2b "GET" then .GET
  else if s = s2b "POST" then .POST
  else if s = s2b "PUT" then .PUT
  else if s = s2b "DELETE" then .DELETE
  else if s = s2b "HEAD" then .HEAD
  else if s = s2b "OPTIONS" then .OPTIONS
  else .UNKNOWN

/-- The request record built by the parser (`http_request_t`).
Header names/values are byte strings; `body = none` models a NULL
body pointer. -/
structure http_request_t where
  method : http_method_t
  path : List Nat
  query_string : Option (List Nat)
  version : List Nat
  headers : List (List Nat × List Nat)
  body : Option (List Nat)
  body_length : Nat
deriving DecidableEq, Repr

/-- `get_header_value`: first header whose name matches case-insensitively. -/
def get_header_value (hs : List (List Nat × List Nat)) (name : List Nat) :
    Option (List Nat) :=
  match hs with
  | [] => none
  | (n, v) :: rest => if strCaseEq n name then some v else get_header_value rest name

/-- Inner loop of `read_line_from_buffer`: collect bytes until `\n`
(dropping `\r`), with the `i < max_line_len - 1 = 8191` copy cap.
Returns (collected line bytes, consumed byte count). -/
def rlAux : List Nat → Nat → List Nat × Nat
  | [], _ => ([], 0)
  | c :: rest, i =>
    if 8191 ≤ i then ([], 0)
    else if c = 10 then ([], 1)
    else if c = 13 then
      let (ln, n) := rlAux rest i
      (ln, n + 1)
    else
      let (ln, n) := rlAux rest (i + 1)
      (c :: ln, n + 1)

/-- `read_line_from_buffer`: `none` models the `-1` no-progress result
(cursor already at end of buffer); otherwise the line and new cursor. -/
def read_line_from_buffer (buf : List Nat) (pos : Nat) : Option (List Nat × Nat) :=
  let r := rlAux (List.drop pos buf) 0
  if 0 < r.1.length || 0 < r.2 then some (r.1, pos + r.2) else none

/-- `strtok(line, " ")` token sequence: maximal runs of non-space bytes.
(The third `strtok` call also splits on `\r\n`, but `read_line_from_buffer`
already strips those.) -/
def splitTok (l : List Nat) : List (List Nat) :=
  (l.splitOnP (fun c => c = 32)).filter (fun t => t ≠ [])

/-- The parser's critical-header set. -/
def critical_headers : List (List Nat) :=
  [s2b "Content-Length", s2b "Transfer-Encoding", s2b "Host",
   s2b "Authorization", s2b "Cookie"]

def isCriticalName (name : List Nat) : Bool :=
  critical_headers.any (fun ch => strCaseEq name ch)

/-- Split a header line at the first `:` (C `strchr`); `none` when absent. -/
def splitAtColon (l : List Nat) : Option (List Nat × List Nat) :=
  let s := l.span (fun c => c ≠ 58)
  match s.2 with
  | [] => none
  | _ :: rest => some (s.1, rest)

/-- Illegal header-name byte (`c < 0x21 || c > 0x7E || ':' || ' ' || '\t'`
on a signed char). -/
def badNameByte (c : Nat) : Bool :=
  decide (sByte c < 33) || decide (126 < sByte c) || c = 58 || c = 32 || c = 9

/-- Header-value byte that triggers the CRLF / control-character skip. -/
def badValueByte (c : Nat) : Bool :=
  c = 13 || c = 10 || (decide (sByte c < 32) && !(c = 9))

/-- One iteration of the header loop body on a non-empty line: validates
the header and either stores it, silently skips it (`goto skip_header` /
`continue`), or signals the MAX_HEADERS `break` (second component true). -/
def processHeaderLine (headers : List (List Nat × List Nat)) (line : List Nat) :
    List (List Nat × List Nat) × Bool :=
  let lineC := truncAtNul line
  match splitAtColon lineC with
  | none => (headers, false)
  | some (rawName, rawValue) =>
    let name := trimC rawName
    let value := trimC rawValue
    if name.length = 0 || 256 < name.length then (headers, false)
    else if name.any badNameByte then (headers, false)
    else if 8192 < value.length then (headers, false)
    else if value.any badValueByte then (headers, false)
    else if isCriticalName name && headers.any (fun h => strCaseEq h.1 name) then
      (headers, false)
    else if 0 < name.length && 0 < value.length then
      if 100 ≤ headers.length then (headers, true)
      else (headers ++ [(name, value)], false)
    else (headers, false)

/-- The header-reading loop.  `fuel` only bounds the recursion: every
iteration advances the cursor by at least one byte, so the caller's
`buf.length + 1` is always sufficient.  `none` models the `-1` error
(total request size over 64 KiB); otherwise (headers, cursor after the
blank line or end, accumulated total_size). -/
def headerLoop (fuel : Nat) (buf : List Nat) (pos totalSize : Nat)
    (headers : List (List Nat × List Nat)) :
    Option (List (List Nat × List Nat) × Nat × Nat) :=
  match fuel with
  | 0 => none
  | f + 1 =>
    match read_line_from_buffer buf pos with
    | none => some (headers, pos, totalSize)
    | some (line, pos') =>
      if line.length = 0 then some (headers, pos', totalSize)
      else
        let total' := totalSize + line.length
        if 65536 < total' then none
        else
          match processHeaderLine headers line with
          | (hs, true) => some (hs, pos', total')
          | (hs, false) => headerLoop f buf pos' total' hs

/-- `strtol(v, &endptr, 10)` on a NUL-free byte string: result value
(clamped to `long`), remaining bytes at `endptr`, whether any digits were
consumed, and the ERANGE flag. -/
def strtol10 (l : List Nat) : Int × List Nat × Bool × Bool :=
  let afterWs := l.dropWhile (fun c => isSpaceC c)
  let sa : Int × List Nat :=
    match afterWs with
    | 43 :: r => (1, r)
    | 45 :: r => (-1, r)
    | _ => (1, afterWs)
  let digits := sa.2.takeWhile (fun c => isDigitC c)
  let rest := sa.2.dropWhile (fun c => isDigitC c)
  if digits.length = 0 then (0, l, false, false)
  else
    let mag : Int := (digits.foldl (fun a c => a * 10 + (c - 48)) (0 : Nat) : Nat)
    let v : Int := sa.1 * mag
    if (2 ^ 63 - 1 : Int) < v then (2 ^ 63 - 1, rest, true, true)
    else if v < -(2 ^ 63) then (-(2 ^ 63), rest, true, true)
    else (v, rest, true, false)

inductive ParseOutcome
  | complete (req : http_request_t)
  | needMore
  | error
deriving DecidableEq, Repr

/-- Fields of the request record fixed by the request line. -/
structure ReqLine where
  method : http_method_t
  path : List Nat
  query_string : Option (List Nat)
  version : List Nat
deriving DecidableEq, Repr

/-- Request-line validation of `parse_http_request_from_buffer`
(method length/alphabet, HTTP version shape and support, URI length and
control bytes, method table, query split, path normalization).
`none` models all the `-1` rejections of that phase. -/
def parse_request_line (line0 : List Nat) : Option ReqLine :=
  match splitTok (truncAtNul line0) with
  | method_str :: uri0 :: version :: _ =>
    if 16 < method_str.length then none
    else if method_str.any (fun c => !isAlphaC c) then none
    else if ¬(List.take 5 version = s2b "HTTP/") then none
    else if ¬(version.length = 8
        ∧ (version.get? 5).any (fun c => isDigitC c)
        ∧ version.get? 6 = some 46
        ∧ (version.get? 7).any (fun c => isDigitC c)) then none
    else if ¬(version = s2b "HTTP/1.0" ∨ version = s2b "HTTP/1.1") then none
    else if 2048 < uri0.length then none
    else if uri0.any (fun c => decide (sByte c < 32) || c = 127) then none
    else if parse_method method_str = .UNKNOWN then none
    else
      let sp := uri0.span (fun c => c ≠ 63)
      let uri := sp.1
      let qs : Option (List Nat) :=
        match sp.2 with
        | [] => none
        | _ :: q => some q
      match normalize_path uri with
      | none => none
      | some path => some ⟨parse_method method_str, path, qs, version⟩
  | _ => none

/-- Body framing after the header loop: the Transfer-Encoding /
Content-Length smuggling checks and body extraction
(src/http.c lines 625-712). -/
def finish_body (buf : List Nat) (pos totalSize : Nat) (rl : ReqLine)
    (headers : List (List Nat × List Nat)) : ParseOutcome :=
  let clv := get_header_value headers (s2b "Content-Length")
  let tev := get_header_value headers (s2b "Transfer-Encoding")
  match tev, clv with
  | some _, some _ => .error
  | some _, none => .error
  | none, some v =>
    let r := strtol10 v
    if r.2.2.2 then .error
    else if ¬(r.2.1 = []) then .error
    else if r.2.2.1 = false then .error
    else if r.1 < 0 then .error
    else if (10485760 : Int) < r.1 then .error
    else if (65536 - totalSize : Nat) < r.1.toNat then .error
    else if 0 < r.1 then
      if r.1.toNat ≤ buf.length - pos then
        .complete ⟨rl.method, rl.path, rl.query_string, rl.version, headers,
          some (List.take r.1.toNat (List.drop pos buf)), r.1.toNat⟩
      else .needMore
    else .complete ⟨rl.method, rl.path, rl.query_string, rl.version, headers, none, 0⟩
  | none, none =>
    .complete ⟨rl.method, rl.path, rl.query_string, rl.version, headers, none, 0⟩

/-- `parse_http_request_from_buffer` from src/http.c.  The
`Transfer-Encoding: chunked` and other-value cases both map to `.error`,
exactly as in the source (lines 636-647). -/
def parse_http_request_from_buffer (buf : List Nat) : ParseOutcome :=
  match read_line_from_buffer buf 0 with
  | none => .error
  | some (line0, pos1) =>
    if line0.length = 0 then .error
    else
      match parse_request_line line0 with
      | none => .error
      | some rl =>
        match headerLoop (buf.length + 1) buf pos1 line0.length [] with
        | none => .error
        | some (headers, pos2, total2) => finish_body buf pos2 total2 rl headers

/-- Pairwise no-duplicate property for the critical header set: a stored
header whose name is critical never matches any earlier stored name. -/
def NoCriticalDup (hs : List (List Nat × List Nat)) : Prop :=
  hs.Pairwise (fun h1 h2 => isCriticalName h2.1 = true → strCaseEq h1.1 h2.1 = false)

theorem processHeaderLine_preserves (hs : List (List Nat × List Nat))
    (line : List Nat) (h : NoCriticalDup hs) :
    NoCriticalDup (processHeaderLine hs line).1 := by
  unfold processHeaderLine
  dsimp only
  rcases hsp : splitAtColon (truncAtNul line) with _ | ⟨rawName, rawValue⟩ <;>
    dsimp only
  · exact h
  · split_ifs with h1 h2 h3 h4 h5 h6 h7
    any_goals exact h
    refine List.pairwise_append.mpr ⟨h, List.pairwise_singleton .., ?_⟩
    intro a ha b hb hcrit
    simp only [List.mem_singleton] at hb
    subst hb
    simp only [Bool.and_eq_true, not_and] at h5
    have hany : (hs.any fun x => strCaseEq x.1 (trimC rawName)) = false := by
      cases hone : (hs.any fun x => strCaseEq x.1 (trimC rawName)) with
      | false => rfl
      | true => exact absurd hone (h5 (by simpa using hcrit))
    simpa using (List.any_eq_false ..).mp hany a ha

theorem headerLoop_preserves (fuel : Nat) (buf : List Nat) :
    ∀ pos t hs hs' pos2 t2, NoCriticalDup hs →
    headerLoop fuel buf pos t hs = some (hs', pos2, t2) →
    NoCriticalDup hs' := by
  induction fuel with
  | zero => intro pos t hs hs' pos2 t2 _ h; exact absurd h (by simp [headerLoop])
  | succ f ih =>
    intro pos t hs hs' pos2 t2 hnd h
    unfold headerLoop at h
    rcases hrl : read_line_from_buffer buf pos with _ | ⟨line, pos'⟩ <;>
      rw [hrl] at h
    · cases h
      exact hnd
    · dsimp only at h
      split_ifs at h with hblank hsz
      · cases h
        exact hnd
      · rcases hph : processHeaderLine hs line with ⟨hs2, brk⟩
        rw [hph] at h
        have hnd2 : NoCriticalDup hs2 := by
          have := processHeaderLine_preserves hs line hnd
          rw [hph] at this
          exact this
        cases brk
        · exact ih _ _ _ _ _ _ hnd2 h
        · cases h
          exact hnd2

theorem finish_body_spec (buf : List Nat) (pos t : Nat) (rl : ReqLine)
    (hs : List (List Nat × List Nat)) (req : http_request_t)
    (h : finish_body buf pos t rl hs = .complete req) :
    req.headers = hs ∧
    get_header_value hs (s2b "Transfer-Encoding") = none ∧
    (∀ v, get_header_value hs (s2b "Content-Length") = some v →
      (strtol10 v).2.1 = [] ∧ (strtol10 v).2.2.1 = true ∧
      (strtol10 v).2.2.2 = false ∧ 0 ≤ (strtol10 v).1 ∧
      (strtol10 v).1 ≤ 10485760 ∧ (strtol10 v).1.toNat ≤ 65536 - t ∧
      req.body_length = (strtol10 v).1.toNat) := by
  unfold finish_body at h
  rcases hte : get_header_value hs (s2b "Transfer-Encoding") with _ | tv <;>
    rcases hcl : get_header_value hs (s2b "Content-Length") with _ | cv <;>
      rw [hte, hcl] at h <;> dsimp only at h
  · cases h
    exact ⟨rfl, rfl, fun v hv => absurd hv (by simp)⟩
  · split_ifs at h with e1 e2 e3 e4 e5 e6 e7 e8
    · cases h
      refine ⟨rfl, rfl, ?_⟩
      intro v hv
      obtain rfl : cv = v := by simpa using hv
      refine ⟨by simpa using e2, by simpa using e3, by simpa using e1,
        by omega, by omega, by omega, ?_⟩
      dsimp only
    · cases h
      refine ⟨rfl, rfl, ?_⟩
      intro v hv
      obtain rfl : cv = v := by simpa using hv
      refine ⟨by simpa using e2, by simpa using e3, by simpa using e1,
        by omega, by omega, by omega, ?_⟩
      have h0 : (strtol10 cv).1 = 0 := by omega
      simp [h0]
  · cases h
  · cases h

theorem parse_complete_struct (buf : List Nat) (req : http_request_t)
    (h : parse_http_request_from_buffer buf = .complete req) :
    ∃ line0 pos1 rl hs pos2 t2,
      read_line_from_buffer buf 0 = some (line0, pos1) ∧
      parse_request_line line0 = some rl ∧
      headerLoop (buf.length + 1) buf pos1 line0.length [] = some (hs, pos2, t2) ∧
      finish_body buf pos2 t2 rl hs = .complete req := by
  unfold parse_http_request_from_buffer at h
  split at h
  · exact (ParseOutcome.noConfusion h)
  next line0 pos1 heq0 =>
    split_ifs at h with hblank
    split at h
    · exact (ParseOutcome.noConfusion h)
    next rl heq1 =>
      split at h
      · exact (ParseOutcome.noConfusion h)
      next hs pos2 t2 heq2 =>
        exact ⟨line0, pos1, rl, hs, pos2, t2, heq0, heq1, heq2, h⟩

/-- C1 counterexample: a request with two `Host` headers is NOT rejected.
The duplicate is silently skipped (`goto skip_header`) and the parse
completes, keeping only the first occurrence. -/
theorem parse_accepts_duplicate_critical_header :
    parse_http_request_from_buffer
        (s2b "GET / HTTP/1.1\r\nHost: a\r\nHost: b\r\n\r\n") =
      .complete ⟨.GET, s2b "/", none, s2b "HTTP/1.1",
        [(s2b "Host", s2b "a")], none, 0⟩ := by decide

/-- C1 (amended): a duplicate critical header does not abort the parse;
the later occurrence is dropped.  Consequently every completed request
record stores at most one header of each critical name: whenever a stored
header's name is in the critical set, no earlier stored header matches it
case-insensitively. -/
theorem parse_no_critical_duplicates (buf : List Nat) (req : http_request_t)
    (h : parse_http_request_from_buffer buf = .complete req) :
    req.headers.Pairwise
      (fun h1 h2 => isCriticalName h2.1 = true → strCaseEq h1.1 h2.1 = false) := by
  obtain ⟨line0, pos1, rl, hs, pos2, t2, -, -, hloop, hfin⟩ :=
    parse_complete_struct buf req h
  have hnd : NoCriticalDup hs :=
    headerLoop_preserves _ buf _ _ _ _ _ _ (List.Pairwise.nil) hloop
  have hhead := (finish_body_spec buf pos2 t2 rl hs req hfin).1
  rw [hhead]
  exact hnd

/-- Witness for `parse_no_critical_duplicates` at a concrete accepted
request. -/
theorem parse_no_critical_duplicates_witness :
    List.Pairwise
      (fun h1 h2 => isCriticalName h2.1 = true → strCaseEq h1.1 h2.1 = false)
      ([(s2b "Host", s2b "a")]) :=
  parse_no_critical_duplicates (s2b "GET / HTTP/1.1\r\nHost: a\r\n\r\n")
    ⟨.GET, s2b "/", none, s2b "HTTP/1.1", [(s2b "Host", s2b "a")], none, 0⟩
    (by decide)

/-- C2 counterexample: a request carrying a `Transfer-Encoding` header
whose value contains a control byte (`chu\x01nked`) is NOT rejected: the
header-value validation skips (drops) the header and the parse completes,
so a Transfer-Encoding header was present on the wire yet no parse error
occurs. -/
theorem parse_accepts_transfer_encoding_with_control_byte :
    parse_http_request_from_buffer
        (s2b "GET / HTTP/1.1\r\nTransfer-Encoding: chu\x01nked\r\n\r\n") =
      .complete ⟨.GET, s2b "/", none, s2b "HTTP/1.1", [], none, 0⟩ := by decide

/-- C2 (amended): the Transfer-Encoding rejection applies to the *stored*
headers: every completed request record contains no Transfer-Encoding
header at all (chunked or any other value), and in particular never both
Content-Length and Transfer-Encoding.  A Transfer-Encoding header whose
value is dropped by the lexical checks (empty after trimming, over-long,
or containing control bytes) does not cause rejection. -/
theorem parse_rejects_stored_transfer_encoding (buf : List Nat)
    (req : http_request_t)
    (h : parse_http_request_from_buffer buf = .complete req) :
    get_header_value req.headers (s2b "Transfer-Encoding") = none ∧
    ¬(get_header_value req.headers (s2b "Content-Length") ≠ none ∧
      get_header_value req.headers (s2b "Transfer-Encoding") ≠ none) := by
  obtain ⟨line0, pos1, rl, hs, pos2, t2, -, -, -, hfin⟩ :=
    parse_complete_struct buf req h
  obtain ⟨hhead, hte, -⟩ := finish_body_spec buf pos2 t2 rl hs req hfin
  rw [hhead]
  exact ⟨hte, fun hcon => hcon.2 hte⟩

/-- Witness for `parse_rejects_stored_transfer_encoding` at a concrete
accepted request. -/
theorem parse_rejects_stored_transfer_encoding_witness :
    get_header_value [(s2b "Host", s2b "a")] (s2b "Transfer-Encoding") = none ∧
    ¬(get_header_value [(s2b "Host", s2b "a")] (s2b "Content-Length") ≠ none ∧
      get_header_value [(s2b "Host", s2b "a")] (s2b "Transfer-Encoding") ≠ none) :=
  parse_rejects_stored_transfer_encoding (s2b "GET / HTTP/1.1\r\nHost: a\r\n\r\n")
    ⟨.GET, s2b "/", none, s2b "HTTP/1.1", [(s2b "Host", s2b "a")], none, 0⟩
    (by decide)

/-- C4 counterexample: `Content-Length: +5` carries a leading plus sign,
which the claim says must be rejected; `strtol` accepts it and the parse
completes with a 5-byte body. -/
theorem parse_accepts_signed_content_length :
    parse_http_request_from_buffer
        (s2b "POST / HTTP/1.1\r\nContent-Length: +5\r\n\r\nhello") =
      .complete ⟨.POST, s2b "/", none, s2b "HTTP/1.1",
        [(s2b "Content-Length", s2b "+5")], some (s2b "hello"), 5⟩ := by decide

/-- A stored Content-Length value passing every check the parser applies
at src/http.c lines 649-682: `strtol` consumes the whole value with at
least one digit and no ERANGE, and the result lies in `[0, 10 MiB]` and
within the remaining request-size budget `65536 - headers_size`. -/
def clValueOk (v : List Nat) (headersSize : Nat) : Prop :=
  (strtol10 v).2.1 = [] ∧ (strtol10 v).2.2.1 = true ∧
  (strtol10 v).2.2.2 = false ∧ 0 ≤ (strtol10 v).1 ∧
  (strtol10 v).1 ≤ 10485760 ∧ (strtol10 v).1.toNat ≤ 65536 - headersSize

instance (v : List Nat) (t : Nat) : Decidable (clValueOk v t) := by
  unfold clValueOk; infer_instance

theorem finish_body_invalid_cl (buf : List Nat) (pos t : Nat) (rl : ReqLine)
    (hs : List (List Nat × List Nat)) (v : List Nat)
    (hcl : get_header_value hs (s2b "Content-Length") = some v)
    (hbad : ¬clValueOk v t) :
    finish_body buf pos t rl hs = .error := by
  unfold finish_body
  rcases hte : get_header_value hs (s2b "Transfer-Encoding") with _ | tv <;>
    simp only [hte, hcl]
  split_ifs with e1 e2 e3 e4 e5 e6 e7 e8
  any_goals rfl
  all_goals exact absurd ⟨by simpa using e2, by simpa using e3,
    by simpa using e1, by omega, by omega, by omega⟩ hbad

/-- C4 (amended): a completed request stores a Content-Length value `v`
only if `strtol(v, &endptr, 10)` consumes the whole value (no trailing
garbage), with at least one digit, without ERANGE, and the resulting
value `n` satisfies `0 ≤ n ≤ 10 MiB` and `n ≤ 65536 - headers_size`,
where `headers_size` is the byte count of the request line and header
lines accumulated by the parser (`total_size`); the request's
body_length then equals `n`.  Conversely, whenever the header phases
store a Content-Length value violating any of these conditions, the
parse returns an error.  Since `strtol` permits a leading sign, values
such as `+5` (and `-0`) are nonetheless accepted, contrary to the
claim's "no leading sign". -/
theorem parse_content_length_validation (buf : List Nat) :
    (∀ (req : http_request_t) (v : List Nat),
      parse_http_request_from_buffer buf = .complete req →
      get_header_value req.headers (s2b "Content-Length") = some v →
      ∃ line0 pos1 rl pos2 t2,
        read_line_from_buffer buf 0 = some (line0, pos1) ∧
        parse_request_line line0 = some rl ∧
        headerLoop (buf.length + 1) buf pos1 line0.length [] =
          some (req.headers, pos2, t2) ∧
        clValueOk v t2 ∧ req.body_length = (strtol10 v).1.toNat) ∧
    (∀ (line0 : List Nat) (pos1 : Nat) (rl : ReqLine)
       (hs : List (List Nat × List Nat)) (pos2 t2 : Nat) (v : List Nat),
      read_line_from_buffer buf 0 = some (line0, pos1) →
      parse_request_line line0 = some rl →
      headerLoop (buf.length + 1) buf pos1 line0.length [] =
        some (hs, pos2, t2) →
      get_header_value hs (s2b "Content-Length") = some v →
      ¬clValueOk v t2 →
      parse_http_request_from_buffer buf = .error) := by
  constructor
  · intro req v h hv
    obtain ⟨line0, pos1, rl, hs, pos2, t2, hr, hp, hl, hfin⟩ :=
      parse_complete_struct buf req h
    obtain ⟨hhead, -, hcl⟩ := finish_body_spec buf pos2 t2 rl hs req hfin
    obtain ⟨e1, e2, e3, e4, e5, e6, e7⟩ := hcl v (hhead ▸ hv)
    rw [← hhead] at hl
    exact ⟨line0, pos1, rl, pos2, t2, hr, hp, hl, ⟨e1, e2, e3, e4, e5, e6⟩, e7⟩
  · intro line0 pos1 rl hs pos2 t2 v h0 h1 h2 hcl hbad
    have hne : ¬line0.length = 0 := by
      intro hz
      rw [List.length_eq_zero.mp hz] at h1
      rw [show parse_request_line [] = none from rfl] at h1
      exact Option.noConfusion h1
    unfold parse_http_request_from_buffer
    rw [h0]
    dsimp only
    rw [if_neg hne, h1]
    dsimp only
    rw [h2]
    dsimp only
    exact finish_body_invalid_cl buf pos2 t2 rl hs v hcl hbad

/-- Witness for `parse_content_length_validation`: both directions
discharged at concrete requests — `Content-Length: 5` (accepted with a
5-byte body; headers_size 16 + 17 = 33) and `Content-Length: 5x`
(trailing garbage, parse error). -/
theorem parse_content_length_validation_witness :
    (∃ line0 pos1 rl pos2 t2,
      read_line_from_buffer
        (s2b "POST / HTTP/1.1\r\nContent-Length: 5\r\n\r\nhello") 0 =
        some (line0, pos1) ∧
      parse_request_line line0 = some rl ∧
      headerLoop ((s2b "POST / HTTP/1.1\r\nContent-Length: 5\r\n\r\nhello").length + 1)
        (s2b "POST / HTTP/1.1\r\nContent-Length: 5\r\n\r\nhello") pos1 line0.length [] =
        some ([(s2b "Content-Length", s2b "5")], pos2, t2) ∧
      clValueOk (s2b "5") t2 ∧ (5 : Nat) = (strtol10 (s2b "5")).1.toNat) ∧
    parse_http_request_from_buffer
      (s2b "POST / HTTP/1.1\r\nContent-Length: 5x\r\n\r\n") = .error :=
  ⟨(parse_content_length_validation
      (s2b "POST / HTTP/1.1\r\nContent-Length: 5\r\n\r\nhello")).1
    ⟨.POST, s2b "/", none, s2b "HTTP/1.1",
      [(s2b "Content-Length", s2b "5")], some (s2b "hello"), 5⟩
    (s2b "5") (by decide) (by decide),
   (parse_content_length_validation
      (s2b "POST / HTTP/1.1\r\nContent-Length: 5x\r\n\r\n")).2
    (s2b "POST / HTTP/1.1") 17 ⟨.POST, s2b "/", none, s2b "HTTP/1.1"⟩
    [(s2b "Content-Length", s2b "5x")] 39 33 (s2b "5x")
    (by decide) (by decide) (by decide) (by decide) (by decide)⟩

/-! ## OAuth validation (src/oauth.c, validate_oauth) -/

/-- `api_auth_config_t` from include/oauth.h. -/
structure api_auth_config_t where
  app_key : List Nat
  app_secret : List Nat
  allowed_urls : List (List Nat)
  rate_limit : Int
deriving DecidableEq, Repr

/-- `atol` = `strtol(s, NULL, 10)`. -/
def atolC (l : List Nat) : Int := (strtol10 l).1

/-- `is_url_allowed` from src/oauth.c: a `*` entry allows everything; a
pattern ending in `*` is a prefix match on its first `len-1` bytes
(`strncmp`); otherwise exact `strcmp`. -/
def is_url_allowed (config : api_auth_config_t) (url : List Nat) : Bool :=
  config.allowed_urls.any (fun p => p = s2b "*") ||
  config.allowed_urls.any (fun p =>
    match p.getLast? with
    | some 42 => (p.dropLast).isPrefixOf url
    | _ => url = p)

/-- The header-extraction loop of `validate_oauth` assigns on every
case-insensitive match, so the LAST occurrence of each oauth header wins. -/
def lookupLastHeader (hs : List (List Nat × List Nat)) (name : List Nat) :
    Option (List Nat) :=
  match hs with
  | [] => none
  | (n, v) :: rest =>
    match lookupLastHeader rest name with
    | some r => some r
    | none => if strCaseEq n name then some v else none

/-- The comparison loop of `validate_oauth` (src/oauth.c lines 656-660):
`for (i = 0; i < expected_len && i < actual_len; i++) if (e[i] != a[i])
token_match = 0;`.  First component: conjunction of all per-byte
comparisons; second component: the number of loop iterations executed
(bytes visited), which instruments the constant-time claim. -/
def tokenCompareLoop : List Nat → List Nat → Bool × Nat
  | e :: es, a :: a2 =>
    let r := tokenCompareLoop es a2
    (decide (e = a) && r.1, r.2 + 1)
  | _, _ => (true, 0)

/-- The full token comparison of `validate_oauth` (lines 645-660):
`token_match` starts at 1, is cleared on a length mismatch, then the loop
runs over `min(expected_len, actual_len)` bytes clearing it on any
difference — with no early exit in either step. -/
def token_compare (expected actual : List Nat) : Bool × Nat :=
  let r := tokenCompareLoop expected actual
  (decide (expected.length = actual.length) && r.1, r.2)

inductive OauthResult
  | missingParams | unknownApp | timestampExpired | tokenMismatch
  | urlNotAllowed | ok
deriving DecidableEq, Repr

/-- `validate_oauth` from src/oauth.c.  `md5hex` abstracts `md5_hash`
(the MD5-to-lowercase-hex function); `configs` is the loaded credential
store (`g_configs`); `now` is `time(NULL)`.  The `snprintf` into the
1024-byte `token_input` truncates the concatenation to 1023 bytes. -/
def validate_oauth (md5hex : List Nat → List Nat)
    (configs : List api_auth_config_t) (now : Int)
    (headers : List (List Nat × List Nat)) (path : List Nat) : OauthResult :=
  match lookupLastHeader headers (s2b "oauth-app-key"),
        lookupLastHeader headers (s2b "oauth-token"),
        lookupLastHeader headers (s2b "oauth-time"),
        lookupLastHeader headers (s2b "oauth-random") with
  | some k, some tok, some tm, some rnd =>
    match configs.find? (fun c => decide (c.app_key = k)) with
    | none => .unknownApp
    | some config =>
      if 300 < now - atolC tm then .timestampExpired
      else
        let expected := md5hex ((k ++ config.app_secret ++ tm ++ rnd).take 1023)
        if (token_compare expected tok).1 = false then .tokenMismatch
        else if is_url_allowed config path = false then .urlNotAllowed
        else .ok
  | _, _, _, _ => .missingParams

/-- C5 counterexample: a request whose `oauth-time` lies 99000 seconds in
the future is NOT rejected as expired — `now - t > 300` is signed and a
future timestamp makes the difference negative, so validation proceeds to
the token comparison. -/
theorem validate_oauth_accepts_future_timestamp :
    validate_oauth (fun _ => []) [⟨s2b "k", s2b "s", [s2b "*"], 0⟩] 1000
      [(s2b "oauth-app-key", s2b "k"), (s2b "oauth-token", s2b "t"),
       (s2b "oauth-time", s2b "100000"), (s2b "oauth-random", s2b "r")]
      (s2b "/x") = .tokenMismatch ∧
    300 < atolC (s2b "100000") - 1000 := by decide

/-- C5 (amended): with all four oauth headers present and a known
app_key, validation fails with "timestamp expired" exactly when
`now − oauth-time > 300` — a one-sided check: timestamps arbitrarily far
in the FUTURE are never rejected as expired. -/
theorem validate_oauth_expiry_one_sided (md5hex : List Nat → List Nat)
    (configs : List api_auth_config_t) (now : Int)
    (headers : List (List Nat × List Nat)) (path : List Nat)
    (k tok tm rnd : List Nat) (config : api_auth_config_t)
    (h1 : lookupLastHeader headers (s2b "oauth-app-key") = some k)
    (h2 : lookupLastHeader headers (s2b "oauth-token") = some tok)
    (h3 : lookupLastHeader headers (s2b "oauth-time") = some tm)
    (h4 : lookupLastHeader headers (s2b "oauth-random") = some rnd)
    (h5 : configs.find? (fun c => decide (c.app_key = k)) = some config) :
    validate_oauth md5hex configs now headers path = .timestampExpired ↔
      300 < now - atolC tm := by
  unfold validate_oauth
  rw [h1, h2, h3, h4]
  dsimp only
  rw [h5]
  dsimp only
  split_ifs with e1 e2 e3 <;> simp [*]

/-- Witness for `validate_oauth_expiry_one_sided` at a concrete expired
request. -/
theorem validate_oauth_expiry_one_sided_witness :
    validate_oauth (fun _ => []) [⟨s2b "k", s2b "s", [s2b "*"], 0⟩] 1000
      [(s2b "oauth-app-key", s2b "k"), (s2b "oauth-token", s2b "t"),
       (s2b "oauth-time", s2b "100"), (s2b "oauth-random", s2b "r")]
      (s2b "/x") = .timestampExpired ↔
    300 < (1000 : Int) - atolC (s2b "100") :=
  validate_oauth_expiry_one_sided (fun _ => [])
    [⟨s2b "k", s2b "s", [s2b "*"], 0⟩] 1000
    [(s2b "oauth-app-key", s2b "k"), (s2b "oauth-token", s2b "t"),
     (s2b "oauth-time", s2b "100"), (s2b "oauth-random", s2b "r")]
    (s2b "/x") (s2b "k") (s2b "t") (s2b "100") (s2b "r")
    ⟨s2b "k", s2b "s", [s2b "*"], 0⟩
    (by decide) (by decide) (by decide) (by decide) (by decide)

theorem tokenCompareLoop_count (e : List Nat) :
    ∀ a, (tokenCompareLoop e a).2 = min e.length a.length := by
  induction e with
  | nil => intro a; cases a <;> simp [tokenCompareLoop]
  | cons x xs ih =>
    intro a
    cases a with
    | nil => simp [tokenCompareLoop]
    | cons y ys => simp [tokenCompareLoop, ih ys]; omega

theorem tokenCompareLoop_eq (e : List Nat) :
    ∀ a, e.length = a.length →
      ((tokenCompareLoop e a).1 = true ↔ e = a) := by
  induction e with
  | nil =>
    intro a ha
    cases a with
    | nil => simp [tokenCompareLoop]
    | cons y ys => simp at ha
  | cons x xs ih =>
    intro a ha
    cases a with
    | nil => simp at ha
    | cons y ys =>
      simp only [tokenCompareLoop, Bool.and_eq_true, decide_eq_true_eq,
        List.cons.injEq]
      rw [ih ys (by simpa using ha)]

/-- C6 (amended): the comparison never exits early — neither on a length
mismatch nor on the first differing byte: the loop always executes exactly
`min(|expected|, |token|)` iterations whatever the byte contents, and the
result flag is true exactly for identical strings.  However, when the
presented token is shorter than the 32-byte digest, only `min` bytes of
the digest are visited, not all 32. -/
theorem token_compare_constant_trip_count (expected actual : List Nat) :
    (token_compare expected actual).2 = min expected.length actual.length ∧
    ((token_compare expected actual).1 = true ↔ expected = actual) := by
  refine ⟨tokenCompareLoop_count expected actual, ?_⟩
  unfold token_compare
  dsimp only
  constructor
  · intro h
    simp only [Bool.and_eq_true, decide_eq_true_eq] at h
    exact (tokenCompareLoop_eq expected actual h.1).mp h.2
  · rintro rfl
    simp [tokenCompareLoop_eq expected expected rfl]

/-- C6 counterexample: against a 32-byte digest, a 1-byte presented token
makes the loop visit exactly 1 digest byte, not all 32 — refuting "visits
every byte of the expected 32-character digest regardless of the
presented token's length". -/
theorem token_compare_skips_digest_bytes :
    (s2b "0123456789abcdef0123456789abcdef").length = 32 ∧
    (token_compare (s2b "0123456789abcdef0123456789abcdef") (s2b "a")).2 = 1 := by
  decide

/-! ## Per-IP connection limiting (src/connection_limit.c) -/

/-- `ip_connection_t`: one tracked IP with its live-connection count.
`last_access` is abstracted by the staleness oracle passed to each acquire
(see `cleanupConnections`). -/
structure ip_connection_t where
  ip : String
  connection_count : Int
deriving DecidableEq, Repr

/-- The fields of `connection_limit_config_t` that the admission
functions read. -/
structure connection_limit_config_t where
  max_connections_per_ip : Int
  enable_connection_limit : Bool
deriving DecidableEq, Repr

/-- The connection table `g_ip_connections`, flattened: the hash buckets
only partition the chains, and every operation locates an entry by exact
`strcmp` on the IP, so a single list is an equivalent view. -/
abbrev ConnTable := List ip_connection_t

/-- Count seen by the C code for an IP: the first matching chain entry,
`0` when absent. -/
def countOf (s : ConnTable) (ip : String) : Int :=
  match s.find? (fun e => e.ip = ip) with
  | some e => e.connection_count
  | none => 0

/-- The connection half of `cleanup_expired_records`: drops entries with
`now - last_access > 60 && connection_count == 0`.  `stale ip` abstracts
both the 60 s idle test and the `cleanup_interval` gate (a gated run is
`stale = fun _ => false`). -/
def cleanupConnections (stale : String → Bool) (s : ConnTable) : ConnTable :=
  s.filter (fun e => !(stale e.ip && e.connection_count = 0))

/-- Increment the first entry for `ip` (the node `get_or_create` found). -/
def incIp : ConnTable → String → ConnTable
  | [], _ => []
  | e :: rest, ip =>
    if e.ip = ip then { e with connection_count := e.connection_count + 1 } :: rest
    else e :: incIp rest ip

/-- `release_connection`'s guarded decrement on the first matching entry
(`if (conn->connection_count > 0) conn->connection_count--`). -/
def decIp : ConnTable → String → ConnTable
  | [], _ => []
  | e :: rest, ip =>
    if e.ip = ip then
      (if 0 < e.connection_count then
        { e with connection_count := e.connection_count - 1 } else e) :: rest
    else e :: decIp rest ip

/-- `check_connection_limit` from src/connection_limit.c: housekeeping,
`get_or_create` (a fresh entry starts at count 0 and is pushed at the
chain head), the `count >= max` rejection, then the increment.  Result:
(admitted?, new table).  Allocation failure is not modelled. -/
def check_connection_limit (cfg : connection_limit_config_t)
    (stale : String → Bool) (s : ConnTable) (ip : String) : Bool × ConnTable :=
  if cfg.enable_connection_limit = false then (true, s)
  else
    match (cleanupConnections stale s).find? (fun e => e.ip = ip) with
    | none =>
      if cfg.max_connections_per_ip ≤ 0 then
        (false, ⟨ip, 0⟩ :: cleanupConnections stale s)
      else (true, ⟨ip, 1⟩ :: cleanupConnections stale s)
    | some conn =>
      if cfg.max_connections_per_ip ≤ conn.connection_count then
        (false, cleanupConnections stale s)
      else (true, incIp (cleanupConnections stale s) ip)

/-- `release_connection` from src/connection_limit.c: find the entry,
decrement only when positive; no-op when the IP is untracked. -/
def release_connection (cfg : connection_limit_config_t) (s : ConnTable)
    (ip : String) : ConnTable :=
  if cfg.enable_connection_limit = false then s
  else decIp s ip

/-- One acquire (with its housekeeping oracle) or one release. -/
inductive LimitEvent
  | acquire (ip : String) (stale : String → Bool)
  | release (ip : String)

def stepEvent (cfg : connection_limit_config_t) (s : ConnTable) :
    LimitEvent → ConnTable
  | .acquire ip stale => (check_connection_limit cfg stale s ip).2
  | .release ip => release_connection cfg s ip

def runEvents (cfg : connection_limit_config_t) (s : ConnTable) :
    List LimitEvent → ConnTable
  | [] => s
  | e :: es => runEvents cfg (stepEvent cfg s e) es

def admitsIn : List LimitEvent → Nat
  | [] => 0
  | .acquire _ _ :: es => admitsIn es + 1
  | .release _ :: es => admitsIn es

def releasesIn : List LimitEvent → Nat
  | [] => 0
  | .acquire _ _ :: es => releasesIn es
  | .release _ :: es => releasesIn es + 1

def releasesForIp (ip : String) : List LimitEvent → Nat
  | [] => 0
  | .acquire _ _ :: es => releasesForIp ip es
  | .release j :: es => releasesForIp ip es + (if j = ip then 1 else 0)

/-- Number of rejected admits along a run from state `s`. -/
def rejectsIn (cfg : connection_limit_config_t) (s : ConnTable) :
    List LimitEvent → Nat
  | [] => 0
  | .acquire ip stale :: es =>
    (if (check_connection_limit cfg stale s ip).1 then 0 else 1) +
      rejectsIn cfg (stepEvent cfg s (.acquire ip stale)) es
  | .release ip :: es => rejectsIn cfg (stepEvent cfg s (.release ip)) es

/-- Number of accepted admits for a given IP along a run from `s`. -/
def acceptsForIp (cfg : connection_limit_config_t) (s : ConnTable)
    (ip : String) : List LimitEvent → Nat
  | [] => 0
  | .acquire j stale :: es =>
    (if (check_connection_limit cfg stale s j).1 ∧ j = ip then 1 else 0) +
      acceptsForIp cfg (stepEvent cfg s (.acquire j stale)) ip es
  | .release j :: es => acceptsForIp cfg (stepEvent cfg s (.release j)) ip es

def sumCounts (s : ConnTable) : Int := (s.map (fun e => e.connection_count)).sum

/-- Table well-formedness: unique IP keys (guaranteed by `get_or_create`,
which inserts only after a failed lookup) and non-negative counts. -/
def WFTable (s : ConnTable) : Prop :=
  (s.map (fun e => e.ip)).Nodup ∧ ∀ e ∈ s, 0 ≤ e.connection_count

theorem countOf_cons (e : ip_connection_t) (s : ConnTable) (ip : String) :
    countOf (e :: s) ip =
      if e.ip = ip then e.connection_count else countOf s ip := by
  by_cases h : e.ip = ip <;> simp [countOf, List.find?_cons, h]

theorem countOf_eq_zero_of_not_mem (s : ConnTable) (ip : String)
    (h : ∀ e ∈ s, e.ip ≠ ip) : countOf s ip = 0 := by
  induction s with
  | nil => rfl
  | cons e rest ih =>
    rw [countOf_cons, if_neg (h e (by simp)), ih]
    intro x hx
    exact h x (by simp [hx])

theorem countOf_eq_zero_of_find_none (s : ConnTable) (ip : String)
    (h : s.find? (fun e => e.ip = ip) = none) : countOf s ip = 0 := by
  unfold countOf
  rw [h]

theorem incIp_keys (s : ConnTable) (ip : String) :
    (incIp s ip).map (fun e => e.ip) = s.map (fun e => e.ip) := by
  induction s with
  | nil => rfl
  | cons e rest ih =>
    by_cases h : e.ip = ip <;> simp [incIp, h, ih]

theorem countOf_incIp (s : ConnTable) (ip j : String) :
    countOf (incIp s ip) j =
      countOf s j +
        (if (s.find? (fun e => e.ip = ip)).isSome ∧ j = ip then 1 else 0) := by
  induction s with
  | nil => simp [incIp, countOf]
  | cons e rest ih =>
    by_cases h : e.ip = ip
    · simp only [incIp, if_pos h]
      rw [countOf_cons, countOf_cons]
      by_cases hj : e.ip = j
      · have : j = ip := by rw [← hj, h]
        simp [hj, this, List.find?_cons, h]
      · have h2 : ¬j = ip := by
          intro hc
          exact hj (by rw [hc, h])
        have h3 : ¬ip = j := fun hc => h2 hc.symm
        simp [hj, h2, h3, List.find?_cons, h]
    · simp only [incIp, if_neg h]
      rw [countOf_cons, countOf_cons, ih]
      by_cases hj : e.ip = j
      · have : ¬j = ip := by
          intro hc
          exact h (by rw [hj, hc])
        simp [hj, this, List.find?_cons, h]
      · simp [hj, List.find?_cons, h]

theorem sum_incIp (s : ConnTable) (ip : String)
    (h : (s.find? (fun e => e.ip = ip)).isSome) :
    sumCounts (incIp s ip) = sumCounts s + 1 := by
  induction s with
  | nil => simp at h
  | cons e rest ih =>
    by_cases he : e.ip = ip
    · simp only [incIp, if_pos he, sumCounts, List.map_cons, List.sum_cons]
      ring
    · simp only [List.find?_cons, decide_eq_true_eq, he, decide_False] at h
      simp only [incIp, if_neg he, sumCounts, List.map_cons, List.sum_cons] at ih ⊢
      rw [ih (by simpa using h)]
      ring

theorem nonneg_incIp (s : ConnTable) (ip : String)
    (h : ∀ e ∈ s, 0 ≤ e.connection_count) :
    ∀ e ∈ incIp s ip, 0 ≤ e.connection_count := by
  induction s with
  | nil => simp [incIp]
  | cons e rest ih =>
    by_cases he : e.ip = ip
    · simp only [incIp, if_pos he]
      intro x hx
      rcases List.mem_cons.mp hx with hx | hx
      · subst hx
        have := h e (by simp)
        simp only
        omega
      · exact h x (by simp [hx])
    · simp only [incIp, if_neg he]
      intro x hx
      rcases List.mem_cons.mp hx with hx | hx
      · exact hx ▸ h e (by simp)
      · exact ih (fun y hy => h y (by simp [hy])) x hx

theorem decIp_keys (s : ConnTable) (ip : String) :
    (decIp s ip).map (fun e => e.ip) = s.map (fun e => e.ip) := by
  induction s with
  | nil => rfl
  | cons e rest ih =>
    by_cases h : e.ip = ip
    · by_cases hc : 0 < e.connection_count <;> simp [decIp, h, hc, ih]
    · simp [decIp, h, ih]

theorem decIp_of_zero (s : ConnTable) (ip : String)
    (h : countOf s ip = 0) (hnn : ∀ e ∈ s, 0 ≤ e.connection_count) :
    decIp s ip = s := by
  induction s with
  | nil => rfl
  | cons e rest ih =>
    rw [countOf_cons] at h
    by_cases he : e.ip = ip
    · rw [if_pos he] at h
      simp [decIp, he, h]
    · rw [if_neg he] at h
      simp [decIp, he, ih h (fun y hy => hnn y (by simp [hy]))]

theorem countOf_decIp (s : ConnTable) (ip j : String)
    (h : 1 ≤ countOf s ip) :
    countOf (decIp s ip) j = countOf s j - (if j = ip then 1 else 0) := by
  induction s with
  | nil => simp [countOf] at h
  | cons e rest ih =>
    rw [countOf_cons] at h
    by_cases he : e.ip = ip
    · rw [if_pos he] at h
      simp only [decIp, if_pos he, if_pos (by omega : 0 < e.connection_count)]
      rw [countOf_cons, countOf_cons]
      by_cases hj : e.ip = j
      · have : j = ip := by rw [← hj, he]
        simp [hj, this]
      · have : ¬j = ip := fun hc => hj (by rw [hc, he])
        simp [hj, this]
    · rw [if_neg he] at h
      simp only [decIp, if_neg he]
      rw [countOf_cons, countOf_cons, ih h]
      by_cases hj : e.ip = j
      · have : ¬j = ip := fun hc => he (by rw [hj, hc])
        simp [hj, this]
      · simp [hj]

theorem sum_decIp (s : ConnTable) (ip : String) (h : 1 ≤ countOf s ip) :
    sumCounts (decIp s ip) = sumCounts s - 1 := by
  induction s with
  | nil => simp [countOf] at h
  | cons e rest ih =>
    rw [countOf_cons] at h
    by_cases he : e.ip = ip
    · rw [if_pos he] at h
      simp only [decIp, if_pos he, if_pos (by omega : 0 < e.connection_count),
        sumCounts, List.map_cons, List.sum_cons]
      ring
    · rw [if_neg he] at h
      simp only [decIp, if_neg he, sumCounts, List.map_cons, List.sum_cons] at ih ⊢
      rw [ih h]
      ring

theorem nonneg_decIp (s : ConnTable) (ip : String)
    (h : ∀ e ∈ s, 0 ≤ e.connection_count) :
    ∀ e ∈ decIp s ip, 0 ≤ e.connection_count := by
  induction s with
  | nil => simp [decIp]
  | cons e rest ih =>
    by_cases he : e.ip = ip
    · by_cases hc : 0 < e.connection_count
      · simp only [decIp, if_pos he, if_pos hc]
        intro x hx
        rcases List.mem_cons.mp hx with hx | hx
        · subst hx; simp only; omega
        · exact h x (by simp [hx])
      · simp only [decIp, if_pos he, if_neg hc]
        intro x hx
        rcases List.mem_cons.mp hx with hx | hx
        · exact hx ▸ h e (by simp)
        · exact h x (by simp [hx])
    · simp only [decIp, if_neg he]
      intro x hx
      rcases List.mem_cons.mp hx with hx | hx
      · exact hx ▸ h e (by simp)
      · exact ih (fun y hy => h y (by simp [hy])) x hx

theorem cleanup_keys_nodup (stale : String → Bool) (s : ConnTable)
    (h : (s.map (fun e => e.ip)).Nodup) :
    ((cleanupConnections stale s).map (fun e => e.ip)).Nodup :=
  h.sublist (List.Sublist.map _ (List.filter_sublist s))

theorem cleanup_nonneg (stale : String → Bool) (s : ConnTable)
    (h : ∀ e ∈ s, 0 ≤ e.connection_count) :
    ∀ e ∈ cleanupConnections stale s, 0 ≤ e.connection_count := by
  intro e he
  exact h e (List.mem_of_mem_filter he)

theorem cleanup_countOf (stale : String → Bool) (s : ConnTable)
    (h : (s.map (fun e => e.ip)).Nodup) (ip : String) :
    countOf (cleanupConnections stale s) ip = countOf s ip := by
  induction s with
  | nil => rfl
  | cons e rest ih =>
    simp only [List.map_cons, List.nodup_cons] at h
    simp only [cleanupConnections, List.filter_cons] at ih ⊢
    by_cases hp : (!(stale e.ip && decide (e.connection_count = 0))) = true
    · rw [if_pos hp, countOf_cons, countOf_cons, ih h.2]
    · have hz : stale e.ip = true ∧ e.connection_count = 0 := by
        simpa using hp
      rw [if_neg hp, countOf_cons]
      by_cases hip : e.ip = ip
      · rw [if_pos hip, hz.2]
        apply countOf_eq_zero_of_not_mem
        intro x hx hc
        have hxe : x.ip = e.ip := hc.trans hip.symm
        exact h.1 (hxe ▸ List.mem_map_of_mem (fun y => y.ip)
          (List.mem_of_mem_filter hx))
      · rw [if_neg hip, ih h.2]

theorem cleanup_sum (stale : String → Bool) (s : ConnTable) :
    sumCounts (cleanupConnections stale s) = sumCounts s := by
  induction s with
  | nil => rfl
  | cons e rest ih =>
    simp only [cleanupConnections, List.filter_cons] at ih ⊢
    by_cases hp : (!(stale e.ip && decide (e.connection_count = 0))) = true
    · rw [if_pos hp]
      simp only [sumCounts, List.map_cons, List.sum_cons] at ih ⊢
      rw [ih]
    · have hz : stale e.ip = true ∧ e.connection_count = 0 := by
        simpa using hp
      rw [if_neg hp]
      simp only [sumCounts, List.map_cons, List.sum_cons] at ih ⊢
      rw [ih, hz.2, zero_add]

theorem admit_countOf (cfg : connection_limit_config_t) (stale : String → Bool)
    (s : ConnTable) (ip : String) (hen : cfg.enable_connection_limit = true)
    (hwf : WFTable s) (j : String) :
    countOf ((check_connection_limit cfg stale s ip).2) j =
      countOf s j +
        (if (check_connection_limit cfg stale s ip).1 = true ∧ j = ip then 1
         else 0) := by
  unfold check_connection_limit
  rw [if_neg (by simp [hen])]
  have hc1 := cleanup_countOf stale s hwf.1
  rcases hf : (cleanupConnections stale s).find? (fun e => e.ip = ip) with _ | conn <;>
    rw [hf] <;> dsimp only
  · have hzero : countOf (cleanupConnections stale s) ip = 0 :=
      countOf_eq_zero_of_find_none _ _ hf
    by_cases hmax : cfg.max_connections_per_ip ≤ 0
    · rw [if_pos hmax]
      dsimp only
      rw [countOf_cons]
      by_cases hj : j = ip
      · subst hj
        simp only [if_pos rfl]
        rw [← hc1 j, hzero]
        simp
      · rw [if_neg (fun hc : ip = j => hj hc.symm), hc1]
        simp [hj]
    · rw [if_neg hmax]
      dsimp only
      rw [countOf_cons]
      by_cases hj : j = ip
      · subst hj
        simp only [if_pos rfl]
        rw [← hc1 j, hzero]
        simp
      · rw [if_neg (fun hc : ip = j => hj hc.symm), hc1]
        simp [hj]
  · by_cases hmax : cfg.max_connections_per_ip ≤ conn.connection_count
    · rw [if_pos hmax]
      dsimp only
      rw [hc1]
      simp
    · rw [if_neg hmax]
      dsimp only
      rw [countOf_incIp, hc1]
      by_cases hj : j = ip <;> simp [hj, hf]

theorem admit_sum (cfg : connection_limit_config_t) (stale : String → Bool)
    (s : ConnTable) (ip : String) (hen : cfg.enable_connection_limit = true) :
    sumCounts ((check_connection_limit cfg stale s ip).2) =
      sumCounts s +
        (if (check_connection_limit cfg stale s ip).1 = true then 1 else 0) := by
  unfold check_connection_limit
  rw [if_neg (by simp [hen])]
  have hs1 := cleanup_sum stale s
  rcases hf : (cleanupConnections stale s).find? (fun e => e.ip = ip) with _ | conn <;>
    rw [hf] <;> dsimp only
  · by_cases hmax : cfg.max_connections_per_ip ≤ 0
    · rw [if_pos hmax]
      simp only [sumCounts, List.map_cons, List.sum_cons] at hs1 ⊢
      simp [hs1]
    · rw [if_neg hmax]
      simp only [sumCounts, List.map_cons, List.sum_cons] at hs1 ⊢
      simp only [hs1]
      ring_nf
      simp [add_comm]
  · by_cases hmax : cfg.max_connections_per_ip ≤ conn.connection_count
    · rw [if_pos hmax]
      simp [hs1]
    · rw [if_neg hmax]
      dsimp only
      rw [sum_incIp _ _ (by simp [hf]), hs1]
      simp

theorem admit_wf (cfg : connection_limit_config_t) (stale : String → Bool)
    (s : ConnTable) (ip : String) (hwf : WFTable s) :
    WFTable ((check_connection_limit cfg stale s ip).2) := by
  unfold check_connection_limit
  by_cases hen : cfg.enable_connection_limit = false
  · rw [if_pos hen]
    exact hwf
  · rw [if_neg hen]
    have hnd1 := cleanup_keys_nodup stale s hwf.1
    have hnn1 := cleanup_nonneg stale s hwf.2
    have hnotmem : (cleanupConnections stale s).find? (fun e => e.ip = ip) = none →
        ip ∉ (cleanupConnections stale s).map (fun e => e.ip) := by
      intro hf hmem
      obtain ⟨x, hx, hxip⟩ := List.mem_map.mp hmem
      have := List.find?_eq_none.mp hf x hx
      simp [hxip] at this
    rcases hf : (cleanupConnections stale s).find? (fun e => e.ip = ip) with _ | conn <;>
      rw [hf] <;> dsimp only
    · have hni : ∀ x ∈ cleanupConnections stale s, ¬x.ip = ip := by
        intro x hx hc
        exact hnotmem hf (hc ▸ List.mem_map_of_mem (fun y => y.ip) hx)
      by_cases hmax : cfg.max_connections_per_ip ≤ 0
      · rw [if_pos hmax]
        refine ⟨?_, ?_⟩
        · simpa using ⟨hni, hnd1⟩
        · intro x hx
          rcases List.mem_cons.mp hx with hx | hx
          · subst hx; simp
          · exact hnn1 x hx
      · rw [if_neg hmax]
        refine ⟨?_, ?_⟩
        · simpa using ⟨hni, hnd1⟩
        · intro x hx
          rcases List.mem_cons.mp hx with hx | hx
          · subst hx; simp
          · exact hnn1 x hx
    · by_cases hmax : cfg.max_connections_per_ip ≤ conn.connection_count
      · rw [if_pos hmax]
        exact ⟨hnd1, hnn1⟩
      · rw [if_neg hmax]
        dsimp only
        refine ⟨?_, nonneg_incIp _ _ hnn1⟩
        rw [incIp_keys]
        exact hnd1

theorem release_countOf (cfg : connection_limit_config_t) (s : ConnTable)
    (ip : String) (hen : cfg.enable_connection_limit = true)
    (hpos : 1 ≤ countOf s ip) (j : String) :
    countOf (release_connection cfg s ip) j =
      countOf s j - (if j = ip then 1 else 0) := by
  unfold release_connection
  rw [if_neg (by simp [hen])]
  exact countOf_decIp s ip j hpos

theorem release_sum (cfg : connection_limit_config_t) (s : ConnTable)
    (ip : String) (hen : cfg.enable_connection_limit = true)
    (hpos : 1 ≤ countOf s ip) :
    sumCounts (release_connection cfg s ip) = sumCounts s - 1 := by
  unfold release_connection
  rw [if_neg (by simp [hen])]
  exact sum_decIp s ip hpos

theorem release_zero_noop (cfg : connection_limit_config_t) (s : ConnTable)
    (ip : String) (hz : countOf s ip = 0)
    (hnn : ∀ e ∈ s, 0 ≤ e.connection_count) :
    release_connection cfg s ip = s := by
  unfold release_connection
  by_cases hen : cfg.enable_connection_limit = false
  · rw [if_pos hen]
  · rw [if_neg hen]
    exact decIp_of_zero s ip hz hnn

theorem release_wf (cfg : connection_limit_config_t) (s : ConnTable)
    (ip : String) (hwf : WFTable s) :
    WFTable (release_connection cfg s ip) := by
  unfold release_connection
  by_cases hen : cfg.enable_connection_limit = false
  · rw [if_pos hen]; exact hwf
  · rw [if_neg hen]
    refine ⟨?_, nonneg_decIp _ _ hwf.2⟩
    rw [decIp_keys]
    exact hwf.1

theorem run_invariant (cfg : connection_limit_config_t)
    (hen : cfg.enable_connection_limit = true) :
    ∀ (evs : List LimitEvent) (s : ConnTable), WFTable s →
    (∀ n ip, (releasesForIp ip (evs.take n) : Int) ≤
       countOf s ip + acceptsForIp cfg s ip (evs.take n)) →
    WFTable (runEvents cfg s evs) ∧
    (∀ ip, countOf (runEvents cfg s evs) ip =
       countOf s ip + acceptsForIp cfg s ip evs - releasesForIp ip evs) ∧
    sumCounts (runEvents cfg s evs) =
      sumCounts s + ((admitsIn evs : Int) - rejectsIn cfg s evs) - releasesIn evs := by
  intro evs
  induction evs with
  | nil =>
    intro s hwf _
    refine ⟨hwf, ?_, ?_⟩
    · intro ip
      simp [runEvents, acceptsForIp, releasesForIp]
    · simp [runEvents, admitsIn, rejectsIn, releasesIn]
  | cons e es ih =>
    intro s hwf hdisc
    cases e with
    | acquire ip stale =>
      have hwf' : WFTable (stepEvent cfg s (.acquire ip stale)) :=
        admit_wf cfg stale s ip hwf
      have hstep : ∀ j, countOf (stepEvent cfg s (.acquire ip stale)) j =
          countOf s j +
            (if (check_connection_limit cfg stale s ip).1 = true ∧ j = ip then 1
             else 0) :=
        fun j => admit_countOf cfg stale s ip hen hwf j
      have hdisc' : ∀ n j, (releasesForIp j (es.take n) : Int) ≤
          countOf (stepEvent cfg s (.acquire ip stale)) j +
            acceptsForIp cfg (stepEvent cfg s (.acquire ip stale)) j (es.take n) := by
        intro n j
        have h0 := hdisc (n + 1) j
        rw [List.take_succ_cons] at h0
        simp only [releasesForIp, acceptsForIp] at h0
        rw [hstep j]
        by_cases hj : j = ip
        · subst hj
          by_cases hacc : (check_connection_limit cfg stale s j).1 = true <;>
            simp [hacc] at h0 ⊢ <;> push_cast at h0 ⊢ <;> omega
        · have hij : ¬ip = j := fun hc => hj hc.symm
          simp [hj, hij] at h0 ⊢
          push_cast at h0 ⊢
          omega
      obtain ⟨hwf2, hcount2, hsum2⟩ := ih (stepEvent cfg s (.acquire ip stale)) hwf' hdisc'
      refine ⟨hwf2, ?_, ?_⟩
      · intro j
        have := hcount2 j
        simp only [runEvents, acceptsForIp, releasesForIp] at this ⊢
        rw [this, hstep j]
        by_cases hj : j = ip
        · subst hj
          by_cases hacc : (check_connection_limit cfg stale s j).1 = true <;>
            simp [hacc] <;> (all_goals (push_cast; ring))
        · have hij : ¬ip = j := fun hc => hj hc.symm
          simp [hj, hij]
          all_goals (push_cast; ring)
      · have hs := admit_sum cfg stale s ip hen
        simp only [runEvents, admitsIn, rejectsIn, releasesIn, stepEvent] at hsum2 ⊢
        rw [hsum2, hs]
        by_cases hacc : (check_connection_limit cfg stale s ip).1 = true <;>
          simp [hacc] <;> (all_goals (push_cast; omega))
    | release ip =>
      have hpos : 1 ≤ countOf s ip := by
        have h1 := hdisc 1 ip
        simp only [List.take_succ_cons, List.take_zero, releasesForIp,
          acceptsForIp, if_pos rfl] at h1
        push_cast at h1
        omega
      have hstep : ∀ j, countOf (stepEvent cfg s (.release ip)) j =
          countOf s j - (if j = ip then 1 else 0) :=
        fun j => release_countOf cfg s ip hen hpos j
      have hwf' : WFTable (stepEvent cfg s (.release ip)) :=
        release_wf cfg s ip hwf
      have hdisc' : ∀ n j, (releasesForIp j (es.take n) : Int) ≤
          countOf (stepEvent cfg s (.release ip)) j +
            acceptsForIp cfg (stepEvent cfg s (.release ip)) j (es.take n) := by
        intro n j
        have h0 := hdisc (n + 1) j
        rw [List.take_succ_cons] at h0
        simp only [releasesForIp, acceptsForIp] at h0
        rw [hstep j]
        by_cases hj : j = ip
        · subst hj
          simp at h0 ⊢
          push_cast at h0 ⊢
          omega
        · have hij : ¬ip = j := fun hc => hj hc.symm
          simp [hj, hij] at h0 ⊢
          push_cast at h0 ⊢
          omega
      obtain ⟨hwf2, hcount2, hsum2⟩ := ih (stepEvent cfg s (.release ip)) hwf' hdisc'
      refine ⟨hwf2, ?_, ?_⟩
      · intro j
        have := hcount2 j
        simp only [runEvents, acceptsForIp, releasesForIp] at this ⊢
        rw [this, hstep j]
        by_cases hj : j = ip
        · subst hj
          simp
          all_goals (push_cast; ring)
        · have hij : ¬ip = j := fun hc => hj hc.symm
          simp [hj, hij]
          all_goals (push_cast; ring)
      · have hs := release_sum cfg s ip hen hpos
        simp only [runEvents, admitsIn, rejectsIn, releasesIn, stepEvent] at hsum2 ⊢
        rw [hsum2, hs]
        push_cast
        ring

/-- C7: admission accounting.  Starting from the empty table, for every
finite interleaving of admits and releases in which, at every prefix and
for every IP, releases do not exceed accepted admits (releases performed
once per previously admitted connection):
the total of all per-IP counts equals admits − rejects − releases;
every per-IP count is non-negative at every prefix of the run;
a rejected acquire leaves every count unchanged; and a release for an IP
whose count is zero leaves the whole table unchanged. -/
theorem connection_admission_accounting (cfg : connection_limit_config_t)
    (evs : List LimitEvent) (hen : cfg.enable_connection_limit = true)
    (hdisc : ∀ n ip, (releasesForIp ip (evs.take n) : Int) ≤
       (acceptsForIp cfg [] ip (evs.take n) : Int)) :
    sumCounts (runEvents cfg [] evs) =
      ((admitsIn evs : Int) - (rejectsIn cfg [] evs : Int)) -
        (releasesIn evs : Int) ∧
    (∀ n, ∀ e ∈ runEvents cfg [] (evs.take n), 0 ≤ e.connection_count) ∧
    (∀ s ip stale, WFTable s →
      (check_connection_limit cfg stale s ip).1 = false →
      ∀ j, countOf ((check_connection_limit cfg stale s ip).2) j = countOf s j) ∧
    (∀ s ip, (∀ e ∈ s, 0 ≤ e.connection_count) → countOf s ip = 0 →
      release_connection cfg s ip = s) := by
  have hwf0 : WFTable ([] : ConnTable) := ⟨List.nodup_nil, by simp⟩
  refine ⟨?_, ?_, ?_, ?_⟩
  · have hdisc0 : ∀ n ip, (releasesForIp ip (evs.take n) : Int) ≤
        countOf [] ip + acceptsForIp cfg [] ip (evs.take n) := by
      intro n ip
      have := hdisc n ip
      simpa [countOf] using this
    have h := (run_invariant cfg hen evs [] hwf0 hdisc0).2.2
    simpa [sumCounts] using h
  · intro n
    have hdisc0 : ∀ m ip, (releasesForIp ip ((evs.take n).take m) : Int) ≤
        countOf [] ip + acceptsForIp cfg [] ip ((evs.take n).take m) := by
      intro m ip
      rw [List.take_take]
      have := hdisc (min m n) ip
      simpa [countOf] using this
    exact ((run_invariant cfg hen (evs.take n) [] hwf0 hdisc0).1).2
  · intro s ip stale hwf hrej j
    have := admit_countOf cfg stale s ip hen hwf j
    rw [this, hrej]
    simp
  · intro s ip hnn hz
    exact release_zero_noop cfg s ip hz hnn

/-- Witness for `connection_admission_accounting`: a single accepted
acquire of IP `a` under the default limit of 10. -/
theorem connection_admission_accounting_witness :
    sumCounts (runEvents ⟨10, true⟩ []
        [.acquire "a" (fun _ => false)]) =
      ((admitsIn [.acquire "a" (fun _ => false)] : Int) -
        (rejectsIn ⟨10, true⟩ [] [.acquire "a" (fun _ => false)] : Int)) -
        (releasesIn [.acquire "a" (fun _ => false)] : Int) ∧
    (∀ n, ∀ e ∈ runEvents ⟨10, true⟩ []
        ([LimitEvent.acquire "a" (fun _ => false)].take n), 0 ≤ e.connection_count) ∧
    (∀ s ip stale, WFTable s →
      (check_connection_limit ⟨10, true⟩ stale s ip).1 = false →
      ∀ j, countOf ((check_connection_limit ⟨10, true⟩ stale s ip).2) j =
        countOf s j) ∧
    (∀ s ip, (∀ e ∈ s, 0 ≤ e.connection_count) → countOf s ip = 0 →
      release_connection ⟨10, true⟩ s ip = s) :=
  connection_admission_accounting ⟨10, true⟩ [.acquire "a" (fun _ => false)] rfl
    (by
      intro n ip
      rcases n with _ | n <;>
        simp [releasesForIp, List.take_succ_cons, Int.natCast_nonneg])

/-! ## Per-IP rate limiting (src/connection_limit.c, check_rate_limit) -/

/-- `ip_rate_limit_t` from include/connection_limit.h. -/
structure ip_rate_limit_t where
  ip : String
  request_count : Int
  burst_count : Int
  last_request : Int
  window_start : Int
deriving DecidableEq, Repr

/-- The rate-limit fields of `connection_limit_config_t`. -/
structure rate_limit_config_t where
  max_requests_per_second : Int
  max_requests_burst : Int
  enable_rate_limit : Bool
deriving DecidableEq, Repr

abbrev RateTable := List ip_rate_limit_t

/-- The rate half of `cleanup_expired_records` (drop entries idle more
than 300 s); `doClean` abstracts the `cleanup_interval` gate. -/
def cleanupRates (doClean : Bool) (now : Int) (s : RateTable) : RateTable :=
  if doClean then s.filter (fun e => !(300 < now - e.last_request)) else s

/-- Lines 259-266 of src/connection_limit.c: increment `request_count`,
set `last_request = now`, then the burst-decay check — which reads the
just-updated `last_request`, so its condition is `now > now + 1`. -/
def rate_update_tail (e : ip_rate_limit_t) (now : Int) : ip_rate_limit_t :=
  let e3 := { e with request_count := e.request_count + 1, last_request := now }
  if e3.last_request + 1 < now ∧ 0 < e3.burst_count then
    { e3 with burst_count := e3.burst_count - 1 }
  else e3

/-- Lines 239-268 of src/connection_limit.c: window reset, rate and burst
checks, then `rate_update_tail`.  Returns (allowed?, updated entry); a
rejection leaves the counts as after the window reset. -/
def rate_limit_update (cfg : rate_limit_config_t) (e : ip_rate_limit_t)
    (now : Int) : Bool × ip_rate_limit_t :=
  let e1 := if e.window_start < now then
      { e with request_count := 0, window_start := now } else e
  if cfg.max_requests_per_second ≤ e1.request_count then
    if cfg.max_requests_burst ≤ e1.burst_count then (false, e1)
    else (true, rate_update_tail { e1 with burst_count := e1.burst_count + 1 } now)
  else (true, rate_update_tail e1 now)

/-- Replace the first table entry for `ip` (in-place node update). -/
def setIp : RateTable → String → ip_rate_limit_t → RateTable
  | [], _, _ => []
  | e :: rest, ip, x => if e.ip = ip then x :: rest else e :: setIp rest ip x

/-- `check_rate_limit` from src/connection_limit.c: housekeeping,
`get_or_create` (fresh entries start with both counts 0 and
`last_request = window_start = now`), then the per-entry update. -/
def check_rate_limit (cfg : rate_limit_config_t) (doClean : Bool)
    (s : RateTable) (ip : String) (now : Int) : Bool × RateTable :=
  if cfg.enable_rate_limit = false then (true, s)
  else
    match (cleanupRates doClean now s).find? (fun e => e.ip = ip) with
    | none =>
      ((rate_limit_update cfg ⟨ip, 0, 0, now, now⟩ now).1,
        (rate_limit_update cfg ⟨ip, 0, 0, now, now⟩ now).2 ::
          cleanupRates doClean now s)
    | some e =>
      ((rate_limit_update cfg e now).1,
        setIp (cleanupRates doClean now s) ip (rate_limit_update cfg e now).2)

/-- C8: the burst decay is dead code.  `last_request` is assigned `now`
immediately before the check `now > last_request + 1`, which is therefore
never true: across every call `burst_count` never decreases (it stays or
grows by one) — it never decays by 1 per idle second as the code's own
comment ("Burst count decay (decrease by 1 per second)") and the spec
claim.  The second conjunct evaluates a call after 100 idle seconds:
`burst_count` stays 3. -/
theorem rate_limit_burst_never_decays :
    (∀ (cfg : rate_limit_config_t) (e : ip_rate_limit_t) (now : Int),
      (rate_limit_update cfg e now).2.burst_count = e.burst_count ∨
      (rate_limit_update cfg e now).2.burst_count = e.burst_count + 1) ∧
    check_rate_limit ⟨10, 20, true⟩ false [⟨"a", 0, 3, 100, 100⟩] "a" 200 =
      (true, [⟨"a", 1, 3, 200, 200⟩]) := by
  constructor
  · intro cfg e now
    unfold rate_limit_update rate_update_tail
    dsimp only
    split_ifs <;> simp_all <;> omega
  · decide

/-! ## File cache (src/file_io_enhanced.c) -/

/-- `file_cache_item_t`: `data` is the identity of the heap buffer
holding the bytes (what `free(item->data)` releases). -/
structure file_cache_item_t where
  path : List Nat
  data : Nat
  size : Nat
  mtime : Int
  access_time : Int
  ref_count : Int
  is_valid : Bool
deriving DecidableEq, Repr

abbrev CacheTable := List file_cache_item_t

/-- `file_cache_manager_t`, with the hash buckets flattened (all lookups
compare full paths with `strcmp`). -/
structure file_cache_manager_t where
  items : CacheTable
  current_size : Nat
deriving DecidableEq, Repr

/-- Lookup loop of `file_io_enhanced_get_from_cache`: first entry whose
path matches and is valid gets `access_time` refreshed and `ref_count`
incremented; its `data` pointer is returned to the caller (a borrow). -/
def getFromCacheAux (now : Int) (path : List Nat) :
    CacheTable → Option Nat × CacheTable
  | [] => (none, [])
  | e :: rest =>
    if e.path = path ∧ e.is_valid then
      (some e.data,
        { e with access_time := now, ref_count := e.ref_count + 1 } :: rest)
    else
      ((getFromCacheAux now path rest).1, e :: (getFromCacheAux now path rest).2)

def file_io_enhanced_get_from_cache (m : file_cache_manager_t)
    (path : List Nat) (now : Int) : Option Nat × file_cache_manager_t :=
  ((getFromCacheAux now path m.items).1,
   ⟨(getFromCacheAux now path m.items).2, m.current_size⟩)

/-- One pass of `cache_cleanup_thread`: every entry not accessed for more
than 3600 s is unlinked and its `path`/`data` are freed — with NO check of
`ref_count` or `is_valid`.  Second component: the list of freed data
buffers. -/
def cache_cleanup_pass (m : file_cache_manager_t) (now : Int) :
    file_cache_manager_t × List Nat :=
  (⟨m.items.filter (fun e => ¬(3600 < now - e.access_time)),
    m.current_size -
      ((m.items.filter (fun e => 3600 < now - e.access_time)).map
        (fun e => e.size)).sum⟩,
   (m.items.filter (fun e => 3600 < now - e.access_time)).map (fun e => e.data))

/-- Unlink loop of `file_io_enhanced_remove_from_cache` (`break` after the
first path match). -/
def removeAux : CacheTable → List Nat → CacheTable × Option file_cache_item_t
  | [], _ => ([], none)
  | e :: rest, path =>
    if e.path = path then (rest, some e)
    else ((e :: (removeAux rest path).1), (removeAux rest path).2)

/-- `file_io_enhanced_remove_from_cache`: unconditionally frees the
matched entry's buffers — `ref_count` is never consulted.  Second
component: freed data buffers. -/
def file_io_enhanced_remove_from_cache (m : file_cache_manager_t)
    (path : List Nat) : file_cache_manager_t × List Nat :=
  match removeAux m.items path with
  | (items2, some e) => (⟨items2, m.current_size - e.size⟩, [e.data])
  | (items2, none) => (⟨items2, m.current_size⟩, [])

/-- The in-place overwrite of an existing cache entry in
`file_io_enhanced_add_to_cache` (`ref_count` untouched). -/
def overwriteItem (e : file_cache_item_t) (d sz : Nat) (now : Int) :
    file_cache_item_t :=
  { e with data := d, size := sz, mtime := now,
           access_time := now, is_valid := true }

/-- Overwrite search of `file_io_enhanced_add_to_cache`: on a path match
the old `data` is freed and replaced in place (`ref_count` untouched and
unchecked); `none` when no entry matches. -/
def addAux (path : List Nat) (d sz : Nat) (now : Int) :
    CacheTable → Option (CacheTable × Nat)
  | [] => none
  | e :: rest =>
    if e.path = path then some (overwriteItem e d sz now :: rest, e.data)
    else (addAux path d sz now rest).map (fun r => (e :: r.1, r.2))

/-- `file_io_enhanced_add_to_cache`: per-file size cap, in-place
overwrite (freeing the old bytes), or a fresh head insertion with
`ref_count = 1`, `is_valid = 1`.  (As in the source, `current_size` is
not adjusted on overwrite.)  Second component: freed data buffers. -/
def file_io_enhanced_add_to_cache (m : file_cache_manager_t)
    (path : List Nat) (d sz : Nat) (now : Int) (max_file_size : Nat) :
    file_cache_manager_t × List Nat :=
  if max_file_size < sz then (m, [])
  else
    match addAux path d sz now m.items with
    | some (items2, freed) => (⟨items2, m.current_size⟩, [freed])
    | none => (⟨⟨path, d, sz, now, now, 1, true⟩ :: m.items,
        m.current_size + sz⟩, [])

/-- C9: all three reclamation paths free an entry's bytes regardless of
outstanding borrows — `ref_count` is incremented by
`file_io_enhanced_get_from_cache` but never consulted (and never
decremented; no release API exists), and no path defers by clearing
`is_valid`.  (1) explicit removal frees the first matching entry's data
whatever its `ref_count`; (2) the background sweep frees every expired
entry's data whatever its `ref_count`; (3) an overwriting insert frees the
old data whatever its `ref_count`; (4) concretely, after a borrow
(`ref_count` raised to 2) removal still frees the bytes immediately. -/
theorem cache_reclaims_borrowed_bytes :
    (∀ (m : file_cache_manager_t) (path : List Nat) (e : file_cache_item_t),
      m.items.find? (fun x => x.path = path) = some e →
      (file_io_enhanced_remove_from_cache m path).2 = [e.data]) ∧
    (∀ (m : file_cache_manager_t) (now : Int) (e : file_cache_item_t),
      e ∈ m.items → 3600 < now - e.access_time →
      e.data ∈ (cache_cleanup_pass m now).2) ∧
    (∀ (m : file_cache_manager_t) (path : List Nat) (d sz : Nat) (now : Int)
      (cap : Nat) (e : file_cache_item_t),
      m.items.find? (fun x => x.path = path) = some e → sz ≤ cap →
      (file_io_enhanced_add_to_cache m path d sz now cap).2 = [e.data]) ∧
    (file_io_enhanced_remove_from_cache
        (file_io_enhanced_get_from_cache
          ⟨[⟨s2b "/f", 7, 2, 0, 0, 1, true⟩], 2⟩ (s2b "/f") 0).2
        (s2b "/f")).2 = [7] ∧
    ((file_io_enhanced_get_from_cache
        ⟨[⟨s2b "/f", 7, 2, 0, 0, 1, true⟩], 2⟩ (s2b "/f") 0).2).items =
      [⟨s2b "/f", 7, 2, 0, 0, 2, true⟩] := by
  refine ⟨?_, ?_, ?_, by decide, by decide⟩
  · intro m path e hf
    unfold file_io_enhanced_remove_from_cache
    suffices h : (removeAux m.items path).2 = some e by
      rcases hr : removeAux m.items path with ⟨items2, oe⟩
      rw [hr] at h
      cases h
      rfl
    have : ∀ (l : CacheTable), l.find? (fun x => x.path = path) = some e →
        (removeAux l path).2 = some e := by
      intro l
      induction l with
      | nil => intro h; simp at h
      | cons x rest ih =>
        intro h
        rw [List.find?_cons] at h
        by_cases hx : x.path = path
        · simp only [hx, decide_True] at h
          cases h
          simp [removeAux, hx]
        · simp only [hx, decide_False] at h
          simp [removeAux, hx, ih h]
    exact this m.items hf
  · intro m now e hmem hexp
    unfold cache_cleanup_pass
    dsimp only
    exact List.mem_map_of_mem _ (List.mem_filter.mpr ⟨hmem, by simpa using hexp⟩)
  · intro m path d sz now cap e hf hsz
    unfold file_io_enhanced_add_to_cache
    rw [if_neg (by omega)]
    suffices h : ∃ items2, addAux path d sz now m.items = some (items2, e.data) by
      obtain ⟨items2, h⟩ := h
      rw [h]
    clear hsz
    suffices hgen : ∀ l : CacheTable, l.find? (fun x => x.path = path) = some e →
        ∃ items2, addAux path d sz now l = some (items2, e.data) by
      exact hgen m.items hf
    intro l
    induction l with
    | nil => intro h; simp at h
    | cons x rest ih =>
      intro h
      rw [List.find?_cons] at h
      by_cases hx : x.path = path
      · simp only [hx, decide_True] at h
        cases h
        exact ⟨overwriteItem e d sz now :: rest, by simp [addAux, hx]⟩
      · simp only [hx, decide_False] at h
        obtain ⟨items2, h2⟩ := ih h
        exact ⟨x :: items2, by simp [addAux, hx, h2]⟩

/-- Witness for `cache_reclaims_borrowed_bytes`: hypotheses discharged at
a one-entry cache whose entry has `ref_count = 2` (a live borrow). -/
theorem cache_reclaims_borrowed_bytes_witness :
    (file_io_enhanced_remove_from_cache
        ⟨[⟨s2b "/f", 7, 2, 0, 0, 2, true⟩], 2⟩ (s2b "/f")).2 = [7] ∧
    (7 : Nat) ∈ (cache_cleanup_pass
        ⟨[⟨s2b "/f", 7, 2, 0, 0, 2, true⟩], 2⟩ 4000).2 ∧
    (file_io_enhanced_add_to_cache
        ⟨[⟨s2b "/f", 7, 2, 0, 0, 2, true⟩], 2⟩ (s2b "/f") 9 2 0 100).2 = [7] :=
  ⟨cache_reclaims_borrowed_bytes.1 _ (s2b "/f") ⟨s2b "/f", 7, 2, 0, 0, 2, true⟩
      (by decide),
   cache_reclaims_borrowed_bytes.2.1 ⟨[⟨s2b "/f", 7, 2, 0, 0, 2, true⟩], 2⟩ 4000
      ⟨s2b "/f", 7, 2, 0, 0, 2, true⟩ (by decide) (by decide),
   cache_reclaims_borrowed_bytes.2.2.1 ⟨[⟨s2b "/f", 7, 2, 0, 0, 2, true⟩], 2⟩
      (s2b "/f") 9 2 0 100 ⟨s2b "/f", 7, 2, 0, 0, 2, true⟩ (by decide) (by decide)⟩

/-! ## Static file responder (src/file_handler.c) -/

/-- The MIME mapping table from src/file_handler.c. -/
def mime_types : List (List Nat × List Nat) :=
  [(s2b ".html", s2b "text/html"), (s2b ".htm", s2b "text/html"),
   (s2b ".css", s2b "text/css"), (s2b ".js", s2b "application/javascript"),
   (s2b ".mjs", s2b "application/javascript"),
   (s2b ".json", s2b "application/json"), (s2b ".map", s2b "application/json"),
   (s2b ".jpg", s2b "image/jpeg"), (s2b ".jpeg", s2b "image/jpeg"),
   (s2b ".png", s2b "image/png"), (s2b ".gif", s2b "image/gif"),
   (s2b ".svg", s2b "image/svg+xml"), (s2b ".ico", s2b "image/x-icon"),
   (s2b ".webp", s2b "image/webp"), (s2b ".avif", s2b "image/avif"),
   (s2b ".bmp", s2b "image/bmp"), (s2b ".tiff", s2b "image/tiff"),
   (s2b ".txt", s2b "text/plain"), (s2b ".md", s2b "text/markdown"),
   (s2b ".pdf", s2b "application/pdf"), (s2b ".xml", s2b "application/xml"),
   (s2b ".doc", s2b "application/msword"),
   (s2b ".docx",
    s2b "application/vnd.openxmlformats-officedocument.wordprocessingml.document"),
   (s2b ".xls", s2b "application/vnd.ms-excel"),
   (s2b ".xlsx",
    s2b "application/vnd.openxmlformats-officedocument.spreadsheetml.sheet"),
   (s2b ".ppt", s2b "application/vnd.ms-powerpoint"),
   (s2b ".pptx",
    s2b "application/vnd.openxmlformats-officedocument.presentationml.presentation"),
   (s2b ".zip", s2b "application/zip"), (s2b ".tar", s2b "application/x-tar"),
   (s2b ".gz", s2b "application/gzip"), (s2b ".bz2", s2b "application/x-bzip2"),
   (s2b ".7z", s2b "application/x-7z-compressed"),
   (s2b ".mp3", s2b "audio/mpeg"), (s2b ".wav", s2b "audio/wav"),
   (s2b ".ogg", s2b "audio/ogg"), (s2b ".flac", s2b "audio/flac"),
   (s2b ".aac", s2b "audio/aac"), (s2b ".mp4", s2b "video/mp4"),
   (s2b ".webm", s2b "video/webm"), (s2b ".avi", s2b "video/x-msvideo"),
   (s2b ".mov", s2b "video/quicktime"), (s2b ".flv", s2b "video/x-flv"),
   (s2b ".m3u8", s2b "application/x-mpegURL"), (s2b ".ts", s2b "video/MP2T"),
   (s2b ".woff", s2b "font/woff"), (s2b ".woff2", s2b "font/woff2"),
   (s2b ".ttf", s2b "font/ttf"), (s2b ".otf", s2b "font/otf"),
   (s2b ".eot", s2b "application/vnd.ms-fontobject"),
   (s2b ".wasm", s2b "application/wasm")]

/-- `strrchr(filename, '.')`: the suffix starting at the last dot. -/
def lastDotSuffix (l : List Nat) : Option (List Nat) :=
  if l.contains 46 then
    some (46 :: (l.reverse.takeWhile (fun c => c ≠ 46)).reverse)
  else none

/-- `get_mime_type` from src/file_handler.c. -/
def get_mime_type (filename : List Nat) : List Nat :=
  match lastDotSuffix filename with
  | none => s2b "application/octet-stream"
  | some ext =>
    match mime_types.find? (fun m => strCaseEq ext m.1) with
    | some m => m.2
    | none => s2b "application/octet-stream"

/-- Decimal rendering of the length fields (`%ld` / `%d`). -/
def natDec (n : Nat) : List Nat := (Nat.toDigits 10 n).map Char.toNat

/-- `send_http_header` from src/file_handler.c: the charset is appended
only for text-ish content types; every response carries
`Server: X-Server` and `Connection: close`.  `dateStr` stands for the
`strftime` rendering of the current time (method-independent). -/
def send_http_header (status : Nat) (status_text content_type : List Nat)
    (content_length : Nat) (charset dateStr : List Nat) : List Nat :=
  let textish :=
    (content_type.take 5 = s2b "text/") ∨
    content_type = s2b "application/javascript" ∨
    content_type = s2b "application/json" ∨
    content_type = s2b "application/xml"
  let full_ct := if textish then content_type ++ s2b "; charset=" ++ charset
    else content_type
  s2b "HTTP/1.1 " ++ natDec status ++ s2b " " ++ status_text ++
  s2b "\r\nContent-Type: " ++ full_ct ++
  s2b "\r\nContent-Length: " ++ natDec content_length ++
  s2b "\r\nDate: " ++ dateStr ++
  s2b "\r\nServer: X-Server\r\nConnection: close\r\n\r\n"

/-- `stat` result fields read by the responder. -/
structure StatInfo where
  is_dir : Bool
  st_size : Nat
deriving DecidableEq, Repr

/-- The filesystem / transport environment of the responder:
`statOf`/`realpathOf`/`accessOk` model the syscalls; `bytesOf p` is the
byte sequence the (cache/sendfile/mmap/fallback) send path writes for
file `p`; `listingOf dir url charset` is the rendered directory-listing
body; `errorPage status charset` is `send_http_error`'s output.  None of
these depend on the request method. -/
structure FsWorld where
  statOf : List Nat → Option StatInfo
  realpathOf : List Nat → Option (List Nat)
  accessOk : List Nat → Bool
  bytesOf : List Nat → List Nat
  listingOf : List Nat → List Nat → List Nat → List Nat
  errorPage : Nat → List Nat → List Nat

/-- `is_path_safe` from src/file_handler.c: reject any two adjacent dots,
any backslash, any colon. -/
def hasDotDotPair : List Nat → Bool
  | c1 :: c2 :: rest => (c1 = 46 && c2 = 46) || hasDotDotPair (c2 :: rest)
  | _ => false

def is_path_safe (p : List Nat) : Bool :=
  !(hasDotDotPair p) && !(p.contains 92) && !(p.contains 58)

/-- `route_t` fields used by the responder (`path_prefix` in the C
header is named `prefix_path` here). -/
structure route_t where
  prefix_path : List Nat
  local_path : List Nat
  charset : List Nat
deriving DecidableEq, Repr

/-- The relative-path computation of `handle_local_file`: strip the route
prefix (or just the leading slash for the `/` route), then default to
`.`. -/
def relative_path_of (req_path : List Nat) (route : route_t) : List Nat :=
  let rel0 := if route.prefix_path = s2b "/" then req_path
    else req_path.drop route.prefix_path.length
  let rel1 := match rel0 with
    | 47 :: r => r
    | _ => rel0
  if rel1 = [] then s2b "." else rel1

/-- `snprintf(file_path, 1024, "%s/%s", local_path, relative_path)`,
including the 1023-byte truncation. -/
def file_path_of (req_path : List Nat) (route : route_t) : List Nat :=
  (route.local_path ++ [47] ++ relative_path_of req_path route).take 1023

/-- `send_file_content` from src/file_handler.c: stat, 200 header with
MIME type and exact size, then the file bytes (via the enhanced
send/fallback).  Output is (return value, all bytes written). -/
def send_file_content (w : FsWorld) (file_path charset dateStr : List Nat) :
    Int × List Nat :=
  match w.statOf file_path with
  | none => (-1, w.errorPage 404 charset)
  | some st =>
    (0, send_http_header 200 (s2b "OK") (get_mime_type file_path) st.st_size
      charset dateStr ++ w.bytesOf file_path)

/-- `handle_local_file` from src/file_handler.c.  Note that after the
`GET`/`HEAD` gate the method is never consulted again: a `HEAD` request
is served exactly like a `GET`, full body included. -/
def handle_local_file (w : FsWorld) (method : http_method_t)
    (req_path : List Nat) (route : route_t) (dateStr : List Nat) :
    Int × List Nat :=
  if route.local_path.length = 0 then (-1, w.errorPage 500 route.charset)
  else if ¬(method = .GET ∨ method = .HEAD) then
    (-1, w.errorPage 405 route.charset)
  else
    let rel := relative_path_of req_path route
    if is_path_safe rel = false then (-1, w.errorPage 403 route.charset)
    else
      let file_path := file_path_of req_path route
      match w.realpathOf file_path, w.realpathOf route.local_path with
      | some rf, some rl =>
        if ¬(rl.isPrefixOf rf) then (-1, w.errorPage 403 route.charset)
        else
          match w.statOf file_path with
          | none => (-1, w.errorPage 404 route.charset)
          | some st =>
            if st.is_dir then
              let index_path := (file_path ++ s2b "/index.html").take 1023
              if w.accessOk index_path then
                send_file_content w index_path route.charset dateStr
              else
                let body := w.listingOf file_path req_path route.charset
                (0, send_http_header 200 (s2b "OK") (s2b "text/html")
                  body.length route.charset dateStr ++ body)
            else send_file_content w file_path route.charset dateStr
      | _, _ => (-1, w.errorPage 404 route.charset)

/-- C10: a HEAD request to the static responder produces byte-for-byte
the same response as the corresponding GET — unconditionally (the method
is only consulted by the GET/HEAD gate) — and on a sandboxed regular
file the common output is the 200 header followed by the full file
body (not suppressed). -/
theorem handle_local_file_head_eq_get :
    (∀ (w : FsWorld) (req_path : List Nat) (route : route_t)
       (dateStr : List Nat),
      handle_local_file w .HEAD req_path route dateStr =
        handle_local_file w .GET req_path route dateStr) ∧
    (∀ (w : FsWorld) (req_path : List Nat) (route : route_t)
       (dateStr : List Nat) (rf rl : List Nat) (sz : Nat),
      route.local_path.length ≠ 0 →
      is_path_safe (relative_path_of req_path route) = true →
      w.realpathOf (file_path_of req_path route) = some rf →
      w.realpathOf route.local_path = some rl →
      rl.isPrefixOf rf = true →
      w.statOf (file_path_of req_path route) = some ⟨false, sz⟩ →
      handle_local_file w .HEAD req_path route dateStr =
        (0, send_http_header 200 (s2b "OK")
            (get_mime_type (file_path_of req_path route)) sz route.charset
            dateStr ++ w.bytesOf (file_path_of req_path route))) := by
  constructor
  · intro w req_path route dateStr
    unfold handle_local_file
    rfl
  · intro w req_path route dateStr rf rl sz h1 h2 h3 h4 h5 h6
    unfold handle_local_file
    rw [if_neg h1, if_neg (by simp), if_neg (by simp [h2])]
    dsimp only
    rw [h3, h4]
    dsimp only
    rw [if_neg (by simp [h5]), h6]
    dsimp only
    rw [if_neg (by simp)]
    unfold send_file_content
    rw [h6]

/-- A concrete environment for exercising the responder: one regular
2-byte file `./pub/a.txt`, identity `realpath`. -/
def demoWorld : FsWorld where
  statOf := fun p => if p = s2b "./pub/a.txt" then some ⟨false, 2⟩ else none
  realpathOf := fun p => some p
  accessOk := fun _ => false
  bytesOf := fun p => if p = s2b "./pub/a.txt" then s2b "hi" else []
  listingOf := fun _ _ _ => []
  errorPage := fun _ _ => []

def demoRoute : route_t := ⟨s2b "/", s2b "./pub", s2b "utf-8"⟩

/-- Witness for `handle_local_file_head_eq_get`: the sandboxed regular
file `./pub/a.txt` served for a HEAD request, full body included. -/
theorem handle_local_file_head_eq_get_witness :
    handle_local_file demoWorld .HEAD (s2b "/a.txt") demoRoute (s2b "date") =
      (0, send_http_header 200 (s2b "OK")
          (get_mime_type (file_path_of (s2b "/a.txt") demoRoute)) 2
          demoRoute.charset (s2b "date") ++
        demoWorld.bytesOf (file_path_of (s2b "/a.txt") demoRoute)) :=
  handle_local_file_head_eq_get.2 demoWorld (s2b "/a.txt") demoRoute (s2b "date")
    (file_path_of (s2b "/a.txt") demoRoute) (s2b "./pub") 2
    (by decide) (by decide) rfl rfl (by decide) (by decide)
